import Mathlib

/-!
Shallow embedding of the listeria_rs core (src/lib.rs, src/column.rs,
src/listeria_page.rs) and proofs about it.

Rust strings are modelled as Lean `String`, with all operations implemented
over the underlying `List Char` so that every definition evaluates inside the
kernel.  Rust byte-wise lexicographic comparison of UTF-8 strings agrees with
code-point-wise comparison, which is what the char-level order below computes.
Machine floats (`f64`) produced by parsing decimal literals are modelled
exactly as sign/mantissa/decimal-exponent triples (`DecNum`, with `toRat`
giving the denoted rational); the claims under study only concern which
captured text goes into which field.  Fallible Rust code (including `unwrap`
panics) is modelled with `Option`/`Except`.
-/

namespace Listeria

/-! ## Character and string helpers -/

/-- Byte length of a string, as Rust `str::len` computes it (UTF-8 bytes). -/
def byteLen (l : List Char) : Nat :=
  l.foldr (fun c n => c.utf8Size + n) 0

/-- Per-character lowercase map; Rust `str::to_lowercase` restricted to the
ASCII range, which is the only range that the embedded code paths ever
compare case-insensitively (keywords and `P`/`Q` identifiers). -/
def lowerChars (l : List Char) : List Char := l.map Char.toLower

/-- Per-character uppercase map, as for `lowerChars`. -/
def upperChars (l : List Char) : List Char := l.map Char.toUpper

/-- Rust `str::to_lowercase` on the modelled strings. -/
def strLower (s : String) : String := String.mk (lowerChars s.data)

/-- Rust `str::to_uppercase` on the modelled strings. -/
def strUpper (s : String) : String := String.mk (upperChars s.data)

/-- Whitespace test used by `\s` in the regexes and by Rust `str::trim`,
restricted to the ASCII whitespace characters that occur in wiki text. -/
def isWS (c : Char) : Bool := c = ' ' ∨ c = '\t' ∨ c = '\n' ∨ c = '\r'

/-- The ASCII digits. -/
def digitChars : List Char := ['0', '1', '2', '3', '4', '5', '6', '7', '8', '9']

/-- The `\d` class of the regexes and the digit test of number parsing,
restricted to ASCII digits (the identifiers and numerals the code handles). -/
def isDigitC (c : Char) : Bool := digitChars.contains c

/-- Rust `str::trim` / the `\s*` padding allowed by the column regexes. -/
def trimChars (l : List Char) : List Char :=
  ((l.dropWhile isWS).reverse.dropWhile isWS).reverse

/-- Rust `str::split` on a single separator character: all segments, empty
segments included. -/
def splitOnChar (sep : Char) : List Char → List (List Char)
  | [] => [[]]
  | c :: rest =>
    let r := splitOnChar sep rest
    if c = sep then [] :: r
    else
      match r with
      | h :: t => (c :: h) :: t
      | [] => [[c]]

/-- Strips `p` from the front of `l`, returning the remainder. -/
def dropPrefixChars : List Char → List Char → Option (List Char)
  | l, [] => some l
  | [], _ :: _ => none
  | c :: l, p :: ps => if c = p then dropPrefixChars l ps else none

/-- Splits off the final character. -/
def splitLastChar : List Char → Option (List Char × Char)
  | [] => none
  | [c] => some ([], c)
  | c :: rest =>
    match splitLastChar rest with
    | some (m, last) => some (c :: m, last)
    | none => none

/-- Rust `Vec::dedup`: removes consecutive duplicates. -/
def dedupAdj : List String → List String
  | [] => []
  | [a] => [a]
  | a :: b :: t => if a = b then dedupAdj (b :: t) else a :: dedupAdj (b :: t)

/-- Code-point lexicographic comparison of char lists; agrees with the
byte-wise comparison Rust uses on UTF-8 strings. -/
def listCmp : List Char → List Char → Ordering
  | [], [] => .eq
  | [], _ :: _ => .lt
  | _ :: _, [] => .gt
  | a :: as_, b :: bs =>
    match compare a.val.toNat b.val.toNat with
    | .eq => listCmp as_ bs
    | o => o

/-- Rust `Ord` on `String`. -/
def strCmp (a b : String) : Ordering := listCmp a.data b.data

/-- The non-strict order induced by `strCmp`. -/
def strLe (a b : String) : Prop := strCmp a b ≠ Ordering.gt

instance : DecidableRel strLe := fun a b => by unfold strLe; infer_instance

/-- Rust `Vec::sort` / `sort_unstable` on strings (the two agree as
functions); a stable sort by the byte-wise string order. -/
def sortStrings (l : List String) : List String := List.insertionSort strLe l

/-! ## Decimal parsing (Rust `str::parse::<f64>` on the regex-captured text)

The capture grammar only produces strings made of an optional minus sign,
digits and dots, so the embedded parser handles exactly sign + digits +
at most one dot, failing (as Rust's parser does) on a second dot, and
producing the exact rational value. -/

/-- Digits accumulated into a natural number. -/
def digitsToNat (l : List Char) : Nat :=
  l.foldl (fun n c => n * 10 + (c.val.toNat - 48)) 0

/-- Splits a digit run: consumes leading digits. -/
def spanDigits (l : List Char) : List Char × List Char :=
  (l.takeWhile isDigitC, l.dropWhile isDigitC)

/-- An exactly represented decimal number: the value
`(if neg then -1 else 1) * mant / 10 ^ exp`.  Rational arithmetic does not
evaluate inside the Lean kernel, so parsed `f64` literals carry this
structural form; `DecNum.toRat` gives the denoted rational. -/
structure DecNum where
  neg : Bool
  mant : Nat
  exp : Nat
deriving DecidableEq

/-- The rational a `DecNum` denotes. -/
def DecNum.toRat (d : DecNum) : ℚ :=
  (if d.neg then -1 else 1) * (d.mant : ℚ) / (10 : ℚ) ^ d.exp

/-- The integer value of a `DecNum` scaled by a further power of ten. -/
def DecNum.scaled (d : DecNum) (extra : Nat) : ℤ :=
  (if d.neg then -1 else 1) * (d.mant : ℤ) * (10 : ℤ) ^ extra

/-- Numeric comparison of two `DecNum`s (align the exponents, compare the
integer mantissas). -/
def decNumCompare (x y : DecNum) : Ordering :=
  let e := max x.exp y.exp
  let a := x.scaled (e - x.exp)
  let b := y.scaled (e - y.exp)
  if a < b then .lt else if a = b then .eq else .gt

/-- Parses an unsigned decimal `digits[.digits]`; `none` if the text is not of
that shape (e.g. a second dot, or stray characters), mirroring `f64::from_str`
failure on the captured text. -/
def parseUnsignedDec (l : List Char) : Option DecNum :=
  let (intPart, rest) := spanDigits l
  match rest with
  | [] => if intPart.isEmpty then none else some ⟨false, digitsToNat intPart, 0⟩
  | '.' :: frac =>
    if frac.all isDigitC ∧ ¬(intPart.isEmpty ∧ frac.isEmpty) then
      some ⟨false, digitsToNat intPart * 10 ^ frac.length + digitsToNat frac, frac.length⟩
    else none
  | _ => none

/-- Rust `str::parse::<f64>` on the point-capture text, as an exact decimal. -/
def parseF64 (s : String) : Option DecNum :=
  match s.data with
  | '-' :: rest => (parseUnsignedDec rest).map (fun d => { d with neg := true })
  | l => parseUnsignedDec l

/-! ## Percent decoding and UTF-8 (for `urlencoding::decode`) -/

/-- Value of one hexadecimal digit. -/
def hexVal (c : Char) : Option Nat :=
  if '0' ≤ c ∧ c ≤ '9' then some (c.val.toNat - 48)
  else if 'a' ≤ c ∧ c ≤ 'f' then some (c.val.toNat - 87)
  else if 'A' ≤ c ∧ c ≤ 'F' then some (c.val.toNat - 55)
  else none

/-- UTF-8 encoding of one scalar value (standard bit layout). -/
def utf8EncodeChar (c : Char) : List Nat :=
  let n := c.val.toNat
  if n < 0x80 then [n]
  else if n < 0x800 then [0xC0 + n / 64, 0x80 + n % 64]
  else if n < 0x10000 then [0xE0 + n / 4096, 0x80 + n / 64 % 64, 0x80 + n % 64]
  else [0xF0 + n / 262144, 0x80 + n / 4096 % 64, 0x80 + n / 64 % 64, 0x80 + n % 64]

/-- The byte string of a char list. -/
def utf8Encode (l : List Char) : List Nat := l.flatMap utf8EncodeChar

/-- Percent-decoding pass of `urlencoding::decode`: `%XX` with two hex digits
becomes the byte `XX`; malformed escapes are kept verbatim (as the crate
does). Operates on the UTF-8 bytes of the input. -/
def percentDecodeBytes : List Nat → List Nat
  | 0x25 :: h1 :: h2 :: rest =>
    match hexVal (Char.ofNat h1), hexVal (Char.ofNat h2) with
    | some a, some b => (a * 16 + b) :: percentDecodeBytes rest
    | _, _ => 0x25 :: percentDecodeBytes (h1 :: h2 :: rest)
  | b :: rest => b :: percentDecodeBytes rest
  | [] => []

/-- Strict UTF-8 decoding (`String::from_utf8`): rejects truncated sequences,
overlong encodings and surrogate code points. -/
def utf8Decode : List Nat → Option (List Char)
  | [] => some []
  | b1 :: rest =>
    if b1 < 0x80 then (utf8Decode rest).map (Char.ofNat b1 :: ·)
    else if b1 < 0xC2 then none
    else if b1 < 0xE0 then
      match rest with
      | b2 :: rest2 =>
        if 0x80 ≤ b2 ∧ b2 < 0xC0 then
          (utf8Decode rest2).map (Char.ofNat ((b1 - 0xC0) * 64 + (b2 - 0x80)) :: ·)
        else none
      | _ => none
    else if b1 < 0xF0 then
      match rest with
      | b2 :: b3 :: rest3 =>
        if 0x80 ≤ b2 ∧ b2 < 0xC0 ∧ 0x80 ≤ b3 ∧ b3 < 0xC0 then
          let n := (b1 - 0xE0) * 4096 + (b2 - 0x80) * 64 + (b3 - 0x80)
          if 0x800 ≤ n ∧ ¬(0xD800 ≤ n ∧ n ≤ 0xDFFF) then
            (utf8Decode rest3).map (Char.ofNat n :: ·)
          else none
        else none
      | _ => none
    else if b1 < 0xF5 then
      match rest with
      | b2 :: b3 :: b4 :: rest4 =>
        if 0x80 ≤ b2 ∧ b2 < 0xC0 ∧ 0x80 ≤ b3 ∧ b3 < 0xC0 ∧ 0x80 ≤ b4 ∧ b4 < 0xC0 then
          let n := (b1 - 0xF0) * 262144 + (b2 - 0x80) * 4096 + (b3 - 0x80) * 64 + (b4 - 0x80)
          if 0x10000 ≤ n ∧ n ≤ 0x10FFFF then
            (utf8Decode rest4).map (Char.ofNat n :: ·)
          else none
        else none
      | _ => none
    else none

/-- `urlencoding::decode` on the modelled strings. -/
def urlDecode (s : String) : Option String :=
  (utf8Decode (percentDecodeBytes (utf8Encode s.data))).map String.mk

/-! ## JSON values (`serde_json::Value` as accessed by the code) -/

/-- Minimal JSON model.  Object member order is the stored order; the code
under study only looks members up by name and iterates to classify every
member, so the order only influences which error message is produced. -/
inductive Json where
  | null
  | bool (b : Bool)
  | num (q : ℚ)
  | str (s : String)
  | arr (xs : List Json)
  | obj (kvs : List (String × Json))

/-- Looks a key up in an association list of JSON members. -/
def jsonLookup (k : String) : List (String × Json) → Option Json
  | [] => none
  | (k', v) :: rest => if k' = k then some v else jsonLookup k rest

/-- `serde_json` `Value` indexing `j[k]`: `Null` for a missing key or a
non-object. -/
def Json.get (j : Json) (k : String) : Json :=
  match j with
  | .obj kvs => (jsonLookup k kvs).getD .null
  | _ => .null

/-- `Value::as_str`. -/
def Json.asStr : Json → Option String
  | .str s => some s
  | _ => none

/-- `Value::as_array`. -/
def Json.asArr : Json → Option (List Json)
  | .arr xs => some xs
  | _ => none

/-- `Value::as_object`. -/
def Json.asObj : Json → Option (List (String × Json))
  | .obj kvs => some kvs
  | _ => none

/-! ## SparqlValue (src/lib.rs) -/

/-- Latitude/longitude pair (`LatLon` in src/lib.rs); `f64` modelled as the
exact decimal of the parsed text. -/
structure LatLon where
  lat : DecNum
  lon : DecNum
deriving DecidableEq

/-- `SparqlValue` in src/lib.rs. -/
inductive SparqlValue where
  | entity (id : String)
  | file (name : String)
  | uri (u : String)
  | time (t : String)
  | location (p : LatLon)
  | literal (s : String)
deriving DecidableEq

/-- Tail check for `RE_ENTITY`'s capture `([A-Z]\d+)$`: one ASCII uppercase
letter followed by one or more digits. -/
def entityIdTail (l : List Char) : Bool :=
  match l with
  | c :: ds => ('A' ≤ c ∧ c ≤ 'Z' : Bool) && !ds.isEmpty && ds.all isDigitC
  | [] => false

/-- `RE_ENTITY` (`^https{0,1}://www.wikidata.org/entity/([A-Z]\d+)$`): the
returned string is the captured identifier.  The regex' unescaped dots are
modelled as literal dots. -/
def entityCapture (v : List Char) : Option (List Char) :=
  match dropPrefixChars v "http://www.wikidata.org/entity/".data with
  | some rest => if entityIdTail rest then some rest else none
  | none =>
    match dropPrefixChars v "https://www.wikidata.org/entity/".data with
    | some rest => if entityIdTail rest then some rest else none
    | none => none

/-- `RE_FILE` (`^https{0,1}://commons.wikimedia.org/wiki/Special:FilePath/(.+?)$`):
the capture is the non-empty remainder after the prefix. -/
def fileCapture (v : List Char) : Option (List Char) :=
  match dropPrefixChars v "http://commons.wikimedia.org/wiki/Special:FilePath/".data with
  | some rest => if rest.isEmpty then none else some rest
  | none =>
    match dropPrefixChars v "https://commons.wikimedia.org/wiki/Special:FilePath/".data with
    | some rest => if rest.isEmpty then none else some rest
    | none => none

/-- The unsigned body of a `RE_POINT` number token: `\d+[\.0-9]+`, matched
iff the text starts with a digit and continues with one or more digits or
dots. -/
def pointNumBody (m : List Char) : Bool :=
  match m with
  | c :: rest => isDigitC c && !rest.isEmpty && rest.all (fun d => isDigitC d || d = '.')
  | [] => false

/-- One number token of `RE_POINT`: `-{0,1}\d+[\.0-9]+`, i.e. an optional
minus sign then the unsigned body. -/
def pointNumTok (l : List Char) : Bool :=
  match l with
  | c :: rest => if c = '-' then pointNumBody rest else pointNumBody (c :: rest)
  | [] => false

/-- The two space-separated number tokens of the parenthesised point text
(neither `RE_POINT` token can contain a space, so the regex match is
equivalent to this split into exactly two matching tokens). -/
def pointCaptureTokens (mid : List Char) : Option (List Char × List Char) :=
  match splitOnChar ' ' mid with
  | [t1, t2] => if pointNumTok t1 && pointNumTok t2 then some (t1, t2) else none
  | _ => none

/-- The remainder of the `RE_POINT` match after the `Point(` prefix: the
final character must be the closing parenthesis. -/
def pointCaptureRest (rest : List Char) : Option (List Char × List Char) :=
  (splitLastChar rest).bind (fun p => if p.2 = ')' then pointCaptureTokens p.1 else none)

/-- `RE_POINT` (`^Point\((-{0,1}\d+[\.0-9]+) (-{0,1}\d+[\.0-9]+)\)$`): yields
the two captured number texts. -/
def pointCapture (v : List Char) : Option (List Char × List Char) :=
  (dropPrefixChars v "Point(".data).bind pointCaptureRest

/-- The `_` replacement in the file branch: `str::replace("_", " ")`. -/
def underscoresToSpaces (s : String) : String :=
  String.mk (s.data.map (fun c => if c = '_' then ' ' else c))

/-- `SparqlValue::new_from_json` (src/lib.rs): classifies one SPARQL binding
value by its type/value/datatype triple. -/
def SparqlValue.new_from_json (j : Json) : Option SparqlValue :=
  match (j.get "value").asStr with
  | none => none
  | some value =>
    match (j.get "type").asStr with
    | some "uri" =>
      match entityCapture value.data with
      | some id => some (.entity (String.mk id))
      | none =>
        match fileCapture value.data with
        | some f =>
          match urlDecode (String.mk f) with
          | some decoded => some (.file (underscoresToSpaces decoded))
          | none => none
        | none => some (.uri value)
    | some "literal" =>
      match (j.get "datatype").asStr with
      | some "http://www.opengis.net/ont/geosparql#wktLiteral" =>
        match pointCapture value.data with
        | some (t1, t2) =>
          match parseF64 (String.mk t2), parseF64 (String.mk t1) with
          | some lat, some lon => some (.location ⟨lat, lon⟩)
          | _, _ => none
        | none => none
      | some "http://www.w3.org/2001/XMLSchema#dateTime" => some (.time value)
      | none => some (.literal value)
      | some _ => none
    | _ => none

/-! ## Column resolution (src/column.rs) -/

/-- `ColumnType` in src/column.rs. -/
inductive ColumnType where
  | number
  | label
  | labelLang (lang : String)
  | description
  | item
  | property (p : String)
  | propertyQualifier (p q : String)
  | propertyQualifierValue (p q v : String)
  | field (name : String)
  | unknown
deriving DecidableEq

/-- `RE_PROPERTY`'s shape `[Pp]\d+`: a `P` in either case followed by one or
more digits. -/
def isPropIdChars (l : List Char) : Bool :=
  match l with
  | c :: ds => (c = 'P' ∨ c = 'p' : Bool) && !ds.isEmpty && ds.all isDigitC
  | [] => false

/-- The `[Qq]\d+` shape of the middle `RE_PROP_QUAL_VAL` capture. -/
def isQualIdChars (l : List Char) : Bool :=
  match l with
  | c :: ds => (c = 'Q' ∨ c = 'q' : Bool) && !ds.isEmpty && ds.all isDigitC
  | [] => false

/-- The case-insensitive `RE_LABEL_LANG` (`^label/(.+)$`) applied to the
lowercased characters; returns the lowercased capture (the code lowercases
the captured language). -/
def labelLangCapture (low : List Char) : Option (List Char) :=
  match dropPrefixChars low "label/".data with
  | some rest => if rest.isEmpty then none else some rest
  | none => none

/-- `ColumnType::new` (src/column.rs): first-match-wins resolution of a
column key.  The `\s*` padding of the compound regexes is modelled with
`trimChars` around each `/`-separated segment. -/
def ColumnType.new (s : String) : ColumnType :=
  let low := lowerChars s.data
  if low = "number".data then .number
  else if low = "label".data then .label
  else if low = "description".data then .description
  else if low = "item".data then .item
  else
    match labelLangCapture low with
    | some lang => .labelLang (String.mk lang)
    | none =>
      if isPropIdChars s.data then .property (strUpper s)
      else
        match splitOnChar '/' s.data with
        | [a, b] =>
          let a := trimChars a
          let b := trimChars b
          if isPropIdChars a ∧ isPropIdChars b then
            .propertyQualifier (String.mk (upperChars a)) (String.mk (upperChars b))
          else fieldOrUnknown s
        | [a, b, c] =>
          let a := trimChars a
          let b := trimChars b
          let c := trimChars c
          if isPropIdChars a ∧ isQualIdChars b ∧ isPropIdChars c then
            .propertyQualifierValue (String.mk (upperChars a)) (String.mk (upperChars b))
              (String.mk (upperChars c))
          else fieldOrUnknown s
        | _ => fieldOrUnknown s
where
  /-- The trailing `RE_FIELD` (`^\?(.+)$`) check and the `Unknown` fallback. -/
  fieldOrUnknown (s : String) : ColumnType :=
    match s.data with
    | '?' :: rest => if rest.isEmpty then .unknown else .field (String.mk rest)
    | _ => .unknown

/-- `Column` in src/column.rs. -/
structure Column where
  obj : ColumnType
  label : String

/-! ## Entity store (the external `wikibase` collaborator, as consumed)

The spec treats the entity store as an external lookup service
(`loadBatch(ids) -> mapping`); only the parts the embedded code reads are
modelled: labels per language, sitelinks, claims, and a property's declared
value datatype. -/

/-- `wikibase::SnakDataType`, restricted to the variants the code
distinguishes. -/
inductive SnakDataType where
  | wikibaseItem
  | commonsMedia
  | externalId
  | quantity
  | time
  | monolingualText
  | string
  | other
deriving DecidableEq

/-- A claim value (`wikibase::Value`), with numerals kept as text. -/
inductive WbValue where
  | entity (id : String)
  | stringV (s : String)
  | quantity (amount : String)
  | time (t : String)
  | monolingual (lang text : String)
deriving DecidableEq

/-- `wikibase::Snak` as read by the code. -/
structure Snak where
  property : String
  datatype : SnakDataType
  dataValue : Option WbValue
deriving DecidableEq

/-- `wikibase::statement::Statement` as read by the code. -/
structure Statement where
  property : String
  mainSnak : Snak
  qualifiers : List Snak
deriving DecidableEq

/-- One sitelink of an entity. -/
structure Sitelink where
  site : String
  title : String
deriving DecidableEq

/-- Item vs property entity; a property carries its declared value datatype. -/
inductive EntityKind where
  | item
  | property (datatype : Option SnakDataType)
deriving DecidableEq

/-- An entity as read by the code: localized labels, optional sitelinks,
claims. -/
structure Entity where
  kind : EntityKind
  labels : List (String × String)
  sitelinks : Option (List Sitelink)
  claims : List Statement
deriving DecidableEq

/-- `EntityContainer` contents: identifier to entity. -/
def EntityStore := List (String × Entity)

/-- Association-list lookup (first match). -/
def lookupAssoc {α : Type} (k : String) : List (String × α) → Option α
  | [] => none
  | (k', v) :: rest => if k' = k then some v else lookupAssoc k rest

/-- `EntityContainer::get_entity`. -/
def getEntity (store : EntityStore) (id : String) : Option Entity :=
  lookupAssoc id store

/-- `Entity::label_in_locale`. -/
def Entity.labelInLocale (e : Entity) (lang : String) : Option String :=
  lookupAssoc lang e.labels

/-- `Entity::claims_with_property`. -/
def Entity.claimsWithProperty (e : Entity) (p : String) : List Statement :=
  e.claims.filter (fun stm => stm.property = p)

/-! ## Result model (src/lib.rs) -/

/-- `ResultCellPart` in src/lib.rs. -/
inductive ResultCellPart where
  | number
  | entity (id : String) (tryLocalize : Bool)
  | localLink (page label : String)
  | time (t : String)
  | location (lat lon : DecNum)
  | file (name : String)
  | uri (u : String)
  | externalId (prop id : String)
  | text (t : String)
  | snakList (parts : List ResultCellPart)

/-- `ResultCell` in src/lib.rs. -/
structure ResultCell where
  parts : List ResultCellPart

/-- `ResultRow` (src/result_row.rs holds the full definition; the fields below
are the ones src/listeria_page.rs constructs and reads: entity id, cells,
section id, sortkey). -/
structure ResultRow where
  entity_id : String
  cells : List ResultCell
  /-- The Rust field is named `section`, a Lean keyword. -/
  section_id : Nat
  sortkey : String

/-- `LinksType` in src/lib.rs. -/
inductive LinksType where
  | all
  | localL
  | red
  | redOnly
  | text
  | reasonator
deriving DecidableEq

/-- `SortMode` in src/lib.rs. -/
inductive SortMode where
  | label
  | familyName
  | property (p : String)
  | noneM
deriving DecidableEq

/-! ## Pipeline state and environment (src/listeria_page.rs)

`ListeriaPage`'s mutable fields touched by `patch_results` form the state;
its configuration fields and the two external collaborators (the entity
store's batch loader and the wiki query API) form the environment.  Per the
spec the collaborators are synchronous lookup interfaces; a run observes one
fixed answer per query, so they are functions here. -/

/-- The pipeline-mutable fields of `ListeriaPage`. -/
structure PState where
  results : List ResultRow
  shadow_files : List String
  local_page_cache : List (String × Bool)
  entities : EntityStore

/-- The fixed per-run configuration plus external collaborators.
`loadEntities` is `EntityContainer::load_entities` (batch load, may fail);
`couldBeLocal` is the per-file imageinfo check of
`patch_remove_shadow_files` (an API error there degrades to `true` in the
code, which the oracle's fixed answer already reflects); `pageExists` is the
per-title existence check of `cache_local_page_exists`, `none` meaning the
API call failed (in which case the code caches nothing). -/
structure Env where
  wiki : String
  language : String
  links : LinksType
  sort : SortMode
  sort_ascending : Bool
  wikis_to_check_for_shadow_images : List String
  loadEntities : List String → EntityStore → Except String EntityStore
  couldBeLocal : String → Bool
  pageExists : String → Option Bool

/-! ## Query-result parsing (`ListeriaPage::parse_sparql`) -/

/-- One binding row: the classification of each member of a binding object.
Any member whose value cannot be classified is a fatal error with the
member's name in the message (the code also embeds the raw value). -/
def parse_binding_row : List (String × Json) → Except String (List (String × SparqlValue))
  | [] => .ok []
  | (k, v) :: rest =>
    match SparqlValue.new_from_json v with
    | some v2 => (parse_binding_row rest).map (fun r => (k, v2) :: r)
    | none => .error ("Cant parse SPARQL value: " ++ k)

/-- The binding loop of `parse_sparql`: rows kept in order, a row with no
members skipped, a non-object binding a panic (modelled as an error). -/
def parse_bindings : List Json → Except String (List (List (String × SparqlValue)))
  | [] => .ok []
  | b :: rest =>
    match b.asObj with
    | none => .error "parse_sparql: binding is not an object"
    | some kvs =>
      match parse_binding_row kvs with
      | .error e => .error e
      | .ok row =>
        (parse_bindings rest).map (fun tail => if row.isEmpty then tail else row :: tail)

/-- `ListeriaPage::parse_sparql`: records the first declared variable and the
classified binding rows. -/
def parse_sparql (j : Json) : Except String (String × List (List (String × SparqlValue))) :=
  match ((j.get "head").get "vars").asArr with
  | none => .error "Bad SPARQL head.vars"
  | some a =>
    match a.head? with
    | none => .error "Bad SPARQL head.vars"
    | some v =>
      match v.asStr with
      | none => .error "Cant parse first variable"
      | some first_var =>
        match ((j.get "results").get "bindings").asArr with
        | none => .error "Broken SPARQL results.bindings"
        | some bindings =>
          (parse_bindings bindings).map (fun rows => (first_var, rows))

/-! ## Labels (`ListeriaPage::get_local_entity_label`, label generation) -/

/-- `ListeriaPage::get_local_entity_label`: the entity's label in the working
language. -/
def get_local_entity_label (store : EntityStore) (lang id : String) : Option String :=
  (getEntity store id).bind (fun e => e.labelInLocale lang)

/-- Modelled from the spec: `ListeriaList::get_label_with_fallback` lives in
src/listeria_list.rs, which is not part of the sources; per the spec's §4.1
it is the entity store's localized label for the identifier, "falling back to
the raw identifier string when no label exists in the working language". -/
def get_label_with_fallback (store : EntityStore) (lang id : String) : String :=
  (get_local_entity_label store lang id).getD id

/-- `Column::generate_label` (src/column.rs): rewrites the display label of a
column after entities have loaded.  The `PropertyQualifierValue` arm
reproduces the source exactly, which reuses the first property for all three
segments (two `TODO FIXME` marks in the source). -/
def Column.generate_label (store : EntityStore) (lang : String) (c : Column) : Column :=
  { c with
    label :=
      match c.obj with
      | .property prop => get_label_with_fallback store lang prop
      | .propertyQualifier prop qual =>
        get_label_with_fallback store lang prop ++ "/" ++ get_label_with_fallback store lang qual
      | .propertyQualifierValue prop1 _qual _prop2 =>
        get_label_with_fallback store lang prop1 ++ "/" ++
          get_label_with_fallback store lang prop1 ++ "/" ++
          get_label_with_fallback store lang prop1
      | _ => c.label }

/-! ## Stage 1: gather and batch-load entities
(`ListeriaPage::gather_and_load_items`) -/

mutual
/-- The per-part case of
`ListeriaPage::gather_entities_and_external_properties`. -/
def gatherPart : ResultCellPart → List String
  | .entity item true => [item]
  | .externalId prop _ => [prop]
  | .snakList v => gatherParts v
  | _ => []

/-- `ListeriaPage::gather_entities_and_external_properties`: entity ids of
localizable entity parts and property ids of external-id parts, recursively
through `SnakList`. -/
def gatherParts : List ResultCellPart → List String
  | [] => []
  | p :: rest => gatherPart p ++ gatherParts rest
end

/-- `ListeriaPage::load_items`: sort, dedup, batch-load through the entity
store collaborator. -/
def load_items (env : Env) (st : PState) (ids : List String) : Except String PState :=
  match env.loadEntities (dedupAdj (sortStrings ids)) st.entities with
  | .ok es => .ok { st with entities := es }
  | .error e => .error ("Error loading entities: " ++ e)

/-- `ListeriaPage::gather_and_load_items_sort`: under property sort mode,
additionally loads the item values of the sort property's claims. -/
def gather_and_load_items_sort (env : Env) (st : PState) : Except String PState :=
  match env.sort with
  | .property prop =>
    let ids := st.results.flatMap (fun row =>
      match getEntity st.entities row.entity_id with
      | some entity =>
        ((((entity.claims.filter (fun stm => stm.property = prop)).map
            Statement.mainSnak).filter
              (fun snak => snak.datatype = SnakDataType.wikibaseItem)).filterMap
                Snak.dataValue).filterMap
                  (fun v => match v with | .entity id => some id | _ => none)
      | none => [])
    load_items env st ids
  | _ => .ok st

/-- `ListeriaPage::gather_and_load_items`: stage 1 of the patch pipeline. -/
def gather_and_load_items (env : Env) (st : PState) : Except String PState :=
  let ids := st.results.flatMap (fun row => row.cells.flatMap (fun cell => gatherParts cell.parts))
  let ids := ids ++ (match env.sort with | .property prop => [prop] | _ => [])
  match load_items env st ids with
  | .ok st1 => gather_and_load_items_sort env st1
  | .error e => .error e

/-! ## Stage 2: redlinks-only filter (`ListeriaPage::patch_redlinks_only`) -/

/-- The keep condition of the filter: no sitelink of the row's entity matches
the current wiki (an entity without sitelinks is kept). -/
def keepRedOnlyRow (wiki : String) (e : Entity) : Bool :=
  match e.sitelinks with
  | some sl => (sl.filter (fun s => s.site = wiki)).length = 0
  | none => true

/-- The filter loop; the code `unwrap`s the entity lookup, so a missing
entity is a panic, modelled as an error. -/
def filterRedOnly (store : EntityStore) (wiki : String) :
    List ResultRow → Except String (List ResultRow)
  | [] => .ok []
  | r :: rest =>
    match getEntity store r.entity_id with
    | none => .error "patch_redlinks_only: missing entity"
    | some e =>
      (filterRedOnly store wiki rest).map
        (fun tail => if keepRedOnlyRow wiki e then r :: tail else tail)

/-- `ListeriaPage::patch_redlinks_only`: stage 2 of the patch pipeline. -/
def patch_redlinks_only (env : Env) (st : PState) : Except String PState :=
  if env.links ≠ LinksType.redOnly then .ok st
  else
    match filterRedOnly st.entities env.wiki st.results with
    | .ok results => .ok { st with results := results }
    | .error e => .error e

/-! ## Stage 3: localize item links
(`ListeriaPage::patch_items_to_local_links`) -/

/-- `ListeriaPage::entity_to_local_link`: the first sitelink matching the
current wiki becomes a local link; the label is the localized label, falling
back to the page title. -/
def entity_to_local_link (env : Env) (store : EntityStore) (item : String) :
    Option ResultCellPart :=
  match getEntity store item with
  | none => none
  | some entity =>
    match entity.sitelinks with
    | none => none
    | some sl =>
      match (sl.filter (fun s => s.site = env.wiki)).head? with
      | none => none
      | some s =>
        let page := s.title
        let label := (get_local_entity_label store env.language item).getD page
        some (.localLink page label)

mutual
/-- The per-part case of `ListeriaPage::localize_item_links_in_parts`. -/
def localizePart (env : Env) (store : EntityStore) : ResultCellPart → ResultCellPart
  | .entity item true =>
    (match entity_to_local_link env store item with
     | some ll => ll
     | none => .entity item true)
  | .snakList v => .snakList (localize_parts env store v)
  | other => other

/-- `ListeriaPage::localize_item_links_in_parts`, recursive through
`SnakList`. -/
def localize_parts (env : Env) (store : EntityStore) :
    List ResultCellPart → List ResultCellPart
  | [] => []
  | p :: rest => localizePart env store p :: localize_parts env store rest
end

/-- `ListeriaPage::patch_items_to_local_links`: stage 3 of the patch
pipeline; never fails. -/
def patch_items_to_local_links (env : Env) (st : PState) : Except String PState :=
  .ok { st with
        results := st.results.map (fun row =>
          { row with cells := row.cells.map (fun cell =>
              { cell with parts := localize_parts env st.entities cell.parts }) }) }

/-! ## Stage 4: redlinks page-existence cache warm
(`ListeriaPage::patch_redlinks`) -/

/-- `HashMap::insert` on the cache model: replace an existing binding or
append a new one. -/
def cacheInsert (cache : List (String × Bool)) (k : String) (v : Bool) : List (String × Bool) :=
  match lookupAssoc k cache with
  | some _ => cache.map (fun kv => if kv.1 = k then (k, v) else kv)
  | none => cache ++ [(k, v)]

/-- `ListeriaPage::cache_local_page_exists`: a failed API call caches
nothing. -/
def cache_local_page_exists (env : Env) (cache : List (String × Bool)) (page : String) :
    List (String × Bool) :=
  match env.pageExists page with
  | some b => cacheInsert cache page b
  | none => cache

/-- `ListeriaPage::patch_redlinks`: stage 4 of the patch pipeline.  Collects
the (flat) entity parts' ids, their localized labels, and caches existence
per label; never fails. -/
def patch_redlinks (env : Env) (st : PState) : Except String PState :=
  if env.links ≠ LinksType.redOnly ∧ env.links ≠ LinksType.red then .ok st
  else
    let ids := st.results.flatMap (fun row => row.cells.flatMap (fun cell =>
      cell.parts.filterMap (fun p => match p with
        | .entity id _ => some id
        | _ => none)))
    let ids := dedupAdj (sortStrings ids)
    let labels := ids.filterMap (fun id => get_local_entity_label st.entities env.language id)
    let labels := dedupAdj (sortStrings labels)
    .ok { st with local_page_cache := labels.foldl (cache_local_page_exists env) st.local_page_cache }

/-! ## Stage 5: shadow-file removal
(`ListeriaPage::patch_remove_shadow_files`) -/

/-- The file name of a `File` part. -/
def partFile : ResultCellPart → Option String
  | .file f => some f
  | _ => none

/-- All `File` part names of the row collection (top-level parts, in
order, duplicates kept), as the collection loop gathers them. -/
def collect_files (rows : List ResultRow) : List String :=
  rows.flatMap (fun row => row.cells.flatMap (fun cell => cell.parts.filterMap partFile))

/-- The removal condition: a part survives unless it is a `File` part naming
a recorded shadow file. -/
def keepPart (shadow : List String) (p : ResultCellPart) : Bool :=
  match p with
  | .file f => ¬ shadow.contains f
  | _ => true

/-- The removal loop at the end of `patch_remove_shadow_files`: every `File`
part naming a recorded shadow file is dropped from every cell. -/
def remove_shadow_parts (shadow : List String) (rows : List ResultRow) : List ResultRow :=
  rows.map (fun row =>
    { row with cells := row.cells.map (fun cell =>
        { cell with parts := cell.parts.filter (keepPart shadow) }) })

/-- The state transformation of `patch_remove_shadow_files` (the stage never
returns an error; a failed imageinfo query degrades inside the oracle). -/
def shadow_step (env : Env) (st : PState) : PState :=
  if ¬ env.wikis_to_check_for_shadow_images.contains env.wiki then st
  else
    let files := dedupAdj (sortStrings (collect_files st.results))
    let shadow := sortStrings (files.filter env.couldBeLocal)
    { st with
      shadow_files := shadow,
      results := remove_shadow_parts shadow st.results }

/-- `ListeriaPage::patch_remove_shadow_files`: stage 5 of the patch
pipeline. -/
def patch_remove_shadow_files (env : Env) (st : PState) : Except String PState :=
  .ok (shadow_step env st)

/-! ## Stage 6: sort (`ListeriaPage::patch_sort_results`)

`ResultRow`'s sortkey extraction and `compare_to` live in
src/result_row.rs, which is not part of the sources; they are modelled from
the spec's §4.5 below.  Rust's `sort_by` is a stable sort by the comparator,
which for a total preorder is the unique stable sort and is therefore
modelled with `List.insertionSort`. -/

/-- `ListeriaPage::get_datatype_for_property`: a property entity's declared
datatype, `String` in every fallback case. -/
def get_datatype_for_property (st : PState) (prop : String) : SnakDataType :=
  match getEntity st.entities prop with
  | some entity =>
    match entity.kind with
    | .property dt => dt.getD SnakDataType.string
    | .item => SnakDataType.string
  | none => SnakDataType.string

/-- Modelled from the spec: `ResultRow::get_sortkey_label`
(src/result_row.rs is missing); §4.5: sort "by label"; a row lacking a
sortkey gets the empty string. -/
def get_sortkey_label (env : Env) (st : PState) (row : ResultRow) : String :=
  (get_local_entity_label st.entities env.language row.entity_id).getD ""

/-- Modelled from the spec: `ResultRow::get_sortkey_family_name`
(src/result_row.rs is missing); §4.5: "last whitespace-delimited token of
the localized label". -/
def get_sortkey_family_name (env : Env) (st : PState) (row : ResultRow) : String :=
  match ((splitOnChar ' ' (get_sortkey_label env st row).data).filter
      (fun t => ¬ t.isEmpty)).getLast? with
  | some t => String.mk t
  | none => ""

/-- Modelled from the spec: `ResultRow::get_sortkey_prop`
(src/result_row.rs is missing); §4.5: the first matching claim wins
(first-claim-wins), entity values contribute their localized label (raw id
when unlabelled), quantities their amount, times their time text, strings and
monolingual texts their text; a row lacking the property gets the empty
string. -/
def get_sortkey_prop (env : Env) (st : PState) (prop : String) (row : ResultRow) : String :=
  match getEntity st.entities row.entity_id with
  | none => ""
  | some entity =>
    match (entity.claimsWithProperty prop).head? with
    | none => ""
    | some stm =>
      match stm.mainSnak.dataValue with
      | none => ""
      | some v =>
        match v with
        | .entity id => get_label_with_fallback st.entities env.language id
        | .stringV s => s
        | .quantity amount => amount
        | .time t => t
        | .monolingual _ text => text

/-- Modelled from the spec: numeric sortkey comparison; §4.5 orders quantity
claims "by numeric magnitude" while "rows lacking a sortkey compare as the
empty string (sort first, ascending)", so the empty key sorts strictly below
every numeric key and non-empty keys compare by their parsed value. -/
def quantityCompare (a b : String) : Ordering :=
  if a.data.isEmpty then (if b.data.isEmpty then .eq else .lt)
  else if b.data.isEmpty then .gt
  else decNumCompare ((parseF64 a).getD ⟨false, 0, 0⟩) ((parseF64 b).getD ⟨false, 0, 0⟩)

/-- String comparison by code points (= Rust's byte-wise string order). -/
def stringCompare (a b : String) : Ordering := strCmp a b

/-- Modelled from the spec: `ResultRow::compare_to` (src/result_row.rs is
missing); §4.5: the property's datatype selects the comparison rule on the
stored sortkeys — numeric magnitude for quantities, otherwise (times,
labels, strings, monolingual texts, fallback) lexicographic text order. -/
def ResultRow.compare_to (a b : ResultRow) (datatype : SnakDataType) : Ordering :=
  match datatype with
  | .quantity => quantityCompare a.sortkey b.sortkey
  | _ => stringCompare a.sortkey b.sortkey

/-- The non-strict row order used by the stable sort. -/
def rowLE (datatype : SnakDataType) (a b : ResultRow) : Prop :=
  a.compare_to b datatype ≠ Ordering.gt

instance (datatype : SnakDataType) : DecidableRel (rowLE datatype) := fun a b => by
  unfold rowLE; infer_instance

/-- The datatype governing the comparison for the run (set only under
property sort mode). -/
def sort_datatype (env : Env) (st : PState) : SnakDataType :=
  match env.sort with
  | .property prop => get_datatype_for_property st prop
  | _ => SnakDataType.string

/-- The per-row sortkeys of `patch_sort_results`' three sorting modes. -/
def sort_keys (env : Env) (st : PState) : List String :=
  match env.sort with
  | .label => st.results.map (get_sortkey_label env st)
  | .familyName => st.results.map (get_sortkey_family_name env st)
  | .property prop => st.results.map (get_sortkey_prop env st prop)
  | .noneM => []

/-- The "apply sortkeys" loop: row `i` receives sortkey `i`. -/
def keyed_rows (env : Env) (st : PState) : List ResultRow :=
  List.zipWith (fun row k => { row with sortkey := k }) st.results (sort_keys env st)

/-- The stable ascending sort of the keyed rows. -/
def sorted_rows (env : Env) (st : PState) : List ResultRow :=
  List.insertionSort (rowLE (sort_datatype env st)) (keyed_rows env st)

/-- `ListeriaPage::patch_sort_results`: stage 6 of the patch pipeline.  Under
mode `none` it returns before touching anything; otherwise it applies the
sortkeys (after the paranoia length check, which `sort_keys` satisfies by
construction), stably sorts ascending, and reverses the whole sequence when
descending order is requested. -/
def patch_sort_results (env : Env) (st : PState) : Except String PState :=
  match env.sort with
  | .noneM => .ok st
  | _ =>
    if st.results.length ≠ (sort_keys env st).length then
      .error "patch_sort_results: sortkeys length mismatch"
    else
      .ok { st with
            results :=
              if env.sort_ascending then sorted_rows env st
              else (sorted_rows env st).reverse }

/-! ## The patch pipeline (`ListeriaPage::patch_results`) -/

/-- `ListeriaPage::patch_results`: the six stages in their fixed order, each
`?`-propagating its error. -/
def patch_results (env : Env) (st : PState) : Except String PState := do
  let st1 ← gather_and_load_items env st
  let st2 ← patch_redlinks_only env st1
  let st3 ← patch_items_to_local_links env st2
  let st4 ← patch_redlinks env st3
  let st5 ← patch_remove_shadow_files env st4
  let st6 ← patch_sort_results env st5
  return st6

/-- The pipeline as an explicit ordered stage list. -/
def patch_stages (env : Env) : List (PState → Except String PState) :=
  [gather_and_load_items env,
   patch_redlinks_only env,
   patch_items_to_local_links env,
   patch_redlinks env,
   patch_remove_shadow_files env,
   patch_sort_results env]

/-- Runs a list of stages in order, stopping at the first error. -/
def run_stages (stages : List (PState → Except String PState)) (st : PState) :
    Except String PState :=
  stages.foldlM (fun s stage => stage s) st

/-! ## Page-title normalization and tabbed-output sanitization -/

/-- The character-list core of `ListeriaPage::normalize_page_title`.  The
code returns inputs of byte length below 2 unchanged and otherwise calls
`split_at(1)`, a byte split that panics (`none` here) when the first
character occupies more than one byte; a one-byte first character is
uppercased (`to_uppercase` of a single ASCII character). -/
def normalizeChars (l : List Char) : Option (List Char) :=
  if byteLen l < 2 then some l
  else
    match l with
    | [] => some []
    | c :: rest => if c.utf8Size = 1 then some (Char.toUpper c :: rest) else none

/-- `ListeriaPage::normalize_page_title`. -/
def normalize_page_title (s : String) : Option String :=
  (normalizeChars s.data).map String.mk

/-- `ResultCellPart::tabbed_string_safe` (src/lib.rs): replaces every newline
and tab with a space.  The source then computes `ret[0..380].to_string()`
under a `// 400 chars Max` comment when `ret.len() >= 380`, but discards that
value (the statement ends in `;` and is never assigned), so the returned
string is the sanitized text at full length. -/
def tabbed_string_safe (s : String) : String :=
  String.mk (s.data.map (fun c => if c = '\n' ∨ c = '\t' then ' ' else c))

/-! ## Claim-level definitions and fixtures

The remaining definitions state the claims: grammar and rendering helpers
for column resolution, and the concrete fixtures the witness and
counterexample theorems evaluate. -/

/-- Joins split segments back with the separator. -/
def joinSegs (sep : Char) : List (List Char) → List Char
  | [] => []
  | [x] => x
  | x :: rest => x ++ sep :: joinSegs sep rest

/-- An already-uppercase property identifier `P<digits>`. -/
def isUpperPropTok (l : List Char) : Bool :=
  match l with
  | c :: ds => (c = 'P' : Bool) && !ds.isEmpty && ds.all isDigitC
  | [] => false

/-- An already-uppercase entity identifier `Q<digits>`. -/
def isUpperQualTok (l : List Char) : Bool :=
  match l with
  | c :: ds => (c = 'Q' : Bool) && !ds.isEmpty && ds.all isDigitC
  | [] => false

/-- The property grammar of the claim: `P<digits>`, `P<digits>/P<digits>` or
`P<digits>/Q<digits>/P<digits>`, letters in either case. -/
def propGrammar (s : String) : Bool :=
  match splitOnChar '/' s.data with
  | [a] => isPropIdChars a
  | [a, b] => isPropIdChars a && isPropIdChars b
  | [a, b, c] => isPropIdChars a && isQualIdChars b && isPropIdChars c
  | _ => false

/-- The canonical textual form of a property-based descriptor (the column
grammar of the spec's §6). -/
def renderColumn : ColumnType → String
  | .property p => p
  | .propertyQualifier p q => p ++ "/" ++ q
  | .propertyQualifierValue p q v => p ++ "/" ++ q ++ "/" ++ v
  | _ => ""

/-- Every identifier of a property-based descriptor is uppercase. -/
def upperIds : ColumnType → Bool
  | .property p => isUpperPropTok p.data
  | .propertyQualifier p q => isUpperPropTok p.data && isUpperPropTok q.data
  | .propertyQualifierValue p q v =>
    isUpperPropTok p.data && isUpperQualTok q.data && isUpperPropTok v.data
  | _ => false

/-- Two-row fixture with identical labels (hence identical sortkeys). -/
def c2Store : EntityStore :=
  [("Q1", ⟨.item, [("en", "X")], none, []⟩), ("Q2", ⟨.item, [("en", "X")], none, []⟩)]

/-- Environment requesting a descending label sort. -/
def c2Env : Env :=
  ⟨"enwiki", "en", .all, .label, false, ["enwiki"], fun _ es => .ok es,
    fun _ => false, fun _ => none⟩

/-- Two rows in original order Q1, Q2. -/
def c2St : PState := ⟨[⟨"Q1", [], 0, ""⟩, ⟨"Q2", [], 0, ""⟩], [], [], c2Store⟩

/-- Row Q1 with its computed sortkey. -/
def c2r1 : ResultRow := ⟨"Q1", [], 0, "X"⟩

/-- Row Q2 with its computed sortkey. -/
def c2r2 : ResultRow := ⟨"Q2", [], 0, "X"⟩

/-- Environment for the C1 witness: redlinks-only mode with an empty entity
store, so the second stage panics on the missing entity. -/
def c1Env : Env :=
  ⟨"enwiki", "en", .redOnly, .noneM, true, ["enwiki"], fun _ es => .ok es,
    fun _ => false, fun _ => none⟩

/-- One row whose entity is absent from the store. -/
def c1St : PState := ⟨[⟨"Q9", [], 0, ""⟩], [], [], []⟩

/-- The keep condition of the filter, looked up through the store (`true` is
never consulted on a missing entity under the filter's panic behaviour). -/
def keep_row_red_only (store : EntityStore) (wiki : String) (r : ResultRow) : Bool :=
  match getEntity store r.entity_id with
  | some e => keepRedOnlyRow wiki e
  | none => true

/-- Store for the C9 witness: entity A has a sitelink on the current wiki,
entity B has none. -/
def c9Store : EntityStore :=
  [("Q1", ⟨.item, [], some [⟨"enwiki", "A"⟩], []⟩), ("Q2", ⟨.item, [], none, []⟩)]

/-- Red-only environment for the C9 witness. -/
def c9Env : Env :=
  ⟨"enwiki", "en", .redOnly, .noneM, true, ["enwiki"], fun _ es => .ok es,
    fun _ => false, fun _ => none⟩

/-- Row for the sitelinked entity A. -/
def c9RowA : ResultRow := ⟨"Q1", [], 0, ""⟩

/-- Row for the unlinked entity B. -/
def c9RowB : ResultRow := ⟨"Q2", [], 0, ""⟩

/-- State with the two rows in order A, B. -/
def c9St : PState := ⟨[c9RowA, c9RowB], [], [], c9Store⟩

/-- Environment for the C3 counterexample: the wiki is checked and the one
file could be local. -/
def c3Env : Env :=
  ⟨"enwiki", "en", .all, .noneM, true, ["enwiki"], fun _ es => .ok es,
    fun _ => true, fun _ => none⟩

/-- One row holding one `File` part named A. -/
def c3St : PState := ⟨[⟨"Q1", [⟨[.file "A"]⟩], 0, ""⟩], [], [], []⟩

/-- The classification of one binding row's members, in member order. -/
def classify_row (b : Json) : List (String × SparqlValue) :=
  (b.asObj.getD []).filterMap
    (fun kv => (SparqlValue.new_from_json kv.2).map (fun v => (kv.1, v)))

/-- Bindings for the C8 witness: one classified row, one empty row (to be
skipped), and a duplicate of the first row (kept — no deduplication). -/
def c8Bindings : List Json :=
  [Json.obj [("item", Json.obj [("type", Json.str "uri"),
     ("value", Json.str "http://www.wikidata.org/entity/Q1")])],
   Json.obj [],
   Json.obj [("item", Json.obj [("type", Json.str "uri"),
     ("value", Json.str "http://www.wikidata.org/entity/Q1")])]]

/-- A full SPARQL result document holding `c8Bindings`. -/
def c8Json : Json :=
  Json.obj [("head", Json.obj [("vars", Json.arr [Json.str "item"])]),
    ("results", Json.obj [("bindings", Json.arr c8Bindings)])]

/-- The literal JSON binding carrying a well-known-text geo literal. -/
def mkWktJson (v : String) : Json :=
  Json.obj [("type", Json.str "literal"),
    ("datatype", Json.str "http://www.opengis.net/ont/geosparql#wktLiteral"),
    ("value", Json.str v)]

/-- Store with three distinctly labelled properties. -/
def c5Store : EntityStore :=
  [("P1", ⟨.property none, [("en", "a")], none, []⟩),
   ("P2", ⟨.property none, [("en", "b")], none, []⟩),
   ("P3", ⟨.property none, [("en", "c")], none, []⟩)]

/-! ## Helper lemmas -/

theorem mem_dedupAdj {a : String} : ∀ {l : List String}, a ∈ dedupAdj l ↔ a ∈ l := by
  intro l
  induction l with
  | nil => simp [dedupAdj]
  | cons b t ih =>
    cases t with
    | nil => simp [dedupAdj]
    | cons c t' =>
      by_cases hbc : b = c
      · subst hbc
        have hstep : dedupAdj (b :: b :: t') = dedupAdj (b :: t') := by
          simp [dedupAdj]
        rw [hstep, ih]
        simp only [List.mem_cons]
        tauto
      · have hstep : dedupAdj (b :: c :: t') = b :: dedupAdj (c :: t') := by
          simp [dedupAdj, hbc]
        rw [hstep, List.mem_cons, ih, List.mem_cons]
        simp [List.mem_cons]

theorem mem_sortStrings {a : String} {l : List String} : a ∈ sortStrings l ↔ a ∈ l :=
  (List.perm_insertionSort strLe l).mem_iff

theorem mem_digitChars {c : Char} (h : isDigitC c = true) : c ∈ digitChars :=
  List.elem_iff.mp h

theorem isDigitC_toUpper {c : Char} (h : isDigitC c = true) : c.toUpper = c := by
  have hm := mem_digitChars h
  fin_cases hm <;> decide

theorem isDigitC_toLower {c : Char} (h : isDigitC c = true) : c.toLower = c := by
  have hm := mem_digitChars h
  fin_cases hm <;> decide

theorem isDigitC_facts {c : Char} (h : isDigitC c = true) :
    c ≠ '/' ∧ isWS c = false ∧ c ≠ ' ' := by
  have hm := mem_digitChars h
  fin_cases hm <;> decide

theorem map_toUpper_digits {ds : List Char} (h : ds.all isDigitC = true) :
    ds.map Char.toUpper = ds := by
  induction ds with
  | nil => rfl
  | cons c t ih =>
    rcases List.all_eq_true.mp h c (List.mem_cons_self _ _) with hc
    simp only [List.map_cons, isDigitC_toUpper hc]
    rw [ih (List.all_eq_true.mpr (fun x hx => List.all_eq_true.mp h x (List.mem_cons_of_mem _ hx)))]

theorem map_toLower_digits {ds : List Char} (h : ds.all isDigitC = true) :
    ds.map Char.toLower = ds := by
  induction ds with
  | nil => rfl
  | cons c t ih =>
    rcases List.all_eq_true.mp h c (List.mem_cons_self _ _) with hc
    simp only [List.map_cons, isDigitC_toLower hc]
    rw [ih (List.all_eq_true.mpr (fun x hx => List.all_eq_true.mp h x (List.mem_cons_of_mem _ hx)))]

theorem splitOnChar_ne_nil {sep : Char} : ∀ {l : List Char}, splitOnChar sep l ≠ [] := by
  intro l
  induction l with
  | nil => simp [splitOnChar]
  | cons c rest ih =>
    simp only [splitOnChar]
    by_cases hc : c = sep
    · simp [hc]
    · simp only [if_neg hc]
      cases hr : splitOnChar sep rest with
      | nil => exact absurd hr ih
      | cons h t => simp

theorem joinSegs_cons_of_ne_nil {sep : Char} {x : List Char} {r : List (List Char)}
    (h : r ≠ []) : joinSegs sep (x :: r) = x ++ sep :: joinSegs sep r := by
  cases r with
  | nil => exact absurd rfl h
  | cons y t => rfl

theorem splitOnChar_join {sep : Char} : ∀ {l : List Char},
    joinSegs sep (splitOnChar sep l) = l := by
  intro l
  induction l with
  | nil => rfl
  | cons c rest ih =>
    by_cases hc : c = sep
    · subst hc
      have hstep : splitOnChar c (c :: rest) = [] :: splitOnChar c rest := by
        simp [splitOnChar]
      rw [hstep, joinSegs_cons_of_ne_nil splitOnChar_ne_nil, List.nil_append, ih]
    · cases hr : splitOnChar sep rest with
      | nil => exact absurd hr splitOnChar_ne_nil
      | cons h t =>
        have hstep : splitOnChar sep (c :: rest) = (c :: h) :: t := by
          simp only [splitOnChar, if_neg hc, hr]
        rw [hr] at ih
        rw [hstep]
        cases t with
        | nil => simpa [joinSegs] using ih
        | cons h2 t2 =>
          rw [joinSegs_cons_of_ne_nil (by simp)] at ih
          rw [joinSegs_cons_of_ne_nil (by simp), List.cons_append, ih]

theorem splitOnChar_not_mem {sep : Char} : ∀ {l : List Char}, sep ∉ l →
    splitOnChar sep l = [l] := by
  intro l
  induction l with
  | nil => intro _; rfl
  | cons c rest ih =>
    intro h
    have hc : c ≠ sep := fun he => h (he ▸ List.mem_cons_self _ _)
    have hrest : sep ∉ rest := fun hm => h (List.mem_cons_of_mem _ hm)
    simp only [splitOnChar, if_neg hc, ih hrest]

theorem splitOnChar_append {sep : Char} : ∀ {l₁ l₂ : List Char}, sep ∉ l₁ →
    splitOnChar sep (l₁ ++ sep :: l₂) = l₁ :: splitOnChar sep l₂ := by
  intro l₁ l₂
  induction l₁ with
  | nil =>
    intro _
    simp [splitOnChar]
  | cons c rest ih =>
    intro h
    have hc : c ≠ sep := fun he => h (he ▸ List.mem_cons_self _ _)
    have hrest : sep ∉ rest := fun hm => h (List.mem_cons_of_mem _ hm)
    simp only [List.cons_append, splitOnChar, if_neg hc, List.append_eq, ih hrest]

theorem dropPrefixChars_append : ∀ (p l : List Char), dropPrefixChars (p ++ l) p = some l := by
  intro p
  induction p with
  | nil => intro l; cases l <;> rfl
  | cons c t ih => intro l; simp [List.cons_append, dropPrefixChars, ih]

theorem splitLastChar_append : ∀ (l : List Char) (c : Char),
    splitLastChar (l ++ [c]) = some (l, c)
  | [], _ => rfl
  | [x], c => rfl
  | x :: y :: u, c => by
    have ih := splitLastChar_append (y :: u) c
    simp only [List.cons_append] at ih ⊢
    simp only [splitLastChar]
    rw [ih]

theorem dropWhile_eq_self_of_none {p : Char → Bool} : ∀ {l : List Char},
    (∀ x ∈ l, p x = false) → l.dropWhile p = l := by
  intro l h
  cases l with
  | nil => rfl
  | cons c t =>
    rw [List.dropWhile_cons_of_neg]
    simp [h c (List.mem_cons_self _ _)]

theorem trimChars_eq_self {l : List Char} (h : ∀ x ∈ l, isWS x = false) :
    trimChars l = l := by
  unfold trimChars
  rw [dropWhile_eq_self_of_none h,
    dropWhile_eq_self_of_none (fun x hx => h x (List.mem_reverse.mp hx)), List.reverse_reverse]

/-! ## Claim C6: column resolution uppercases and is idempotent -/

theorem propTok_shape {l : List Char} (h : isPropIdChars l = true) :
    ∃ c ds, l = c :: ds ∧ (c = 'P' ∨ c = 'p') ∧ ds ≠ [] ∧ ds.all isDigitC = true := by
  cases l with
  | nil => simp [isPropIdChars] at h
  | cons c ds =>
    refine ⟨c, ds, rfl, ?_, ?_, ?_⟩ <;>
      simp only [isPropIdChars, Bool.and_eq_true, decide_eq_true_eq] at h
    · exact h.1.1
    · intro he; subst he; simp at h
    · exact h.2

theorem qualTok_shape {l : List Char} (h : isQualIdChars l = true) :
    ∃ c ds, l = c :: ds ∧ (c = 'Q' ∨ c = 'q') ∧ ds ≠ [] ∧ ds.all isDigitC = true := by
  cases l with
  | nil => simp [isQualIdChars] at h
  | cons c ds =>
    refine ⟨c, ds, rfl, ?_, ?_, ?_⟩ <;>
      simp only [isQualIdChars, Bool.and_eq_true, decide_eq_true_eq] at h
    · exact h.1.1
    · intro he; subst he; simp at h
    · exact h.2

theorem propTok_upper {l : List Char} (h : isPropIdChars l = true) :
    isUpperPropTok (upperChars l) = true := by
  obtain ⟨c, ds, hl, hc, hne, hds⟩ := propTok_shape h
  subst hl
  have hcu : c.toUpper = 'P' := by rcases hc with h1 | h1 <;> subst h1 <;> decide
  simp [upperChars, hcu, map_toUpper_digits hds, isUpperPropTok, hne, hds]

theorem qualTok_upper {l : List Char} (h : isQualIdChars l = true) :
    isUpperQualTok (upperChars l) = true := by
  obtain ⟨c, ds, hl, hc, hne, hds⟩ := qualTok_shape h
  subst hl
  have hcu : c.toUpper = 'Q' := by rcases hc with h1 | h1 <;> subst h1 <;> decide
  simp [upperChars, hcu, map_toUpper_digits hds, isUpperQualTok, hne, hds]

theorem upperPropTok_isPropId {l : List Char} (h : isUpperPropTok l = true) :
    isPropIdChars l = true := by
  cases l with
  | nil => simp [isUpperPropTok] at h
  | cons c ds =>
    simp only [isUpperPropTok, Bool.and_eq_true, decide_eq_true_eq] at h
    obtain ⟨⟨hc, hne⟩, hds⟩ := h
    subst hc
    simp [isPropIdChars, hne, hds]

theorem upperQualTok_isQualId {l : List Char} (h : isUpperQualTok l = true) :
    isQualIdChars l = true := by
  cases l with
  | nil => simp [isUpperQualTok] at h
  | cons c ds =>
    simp only [isUpperQualTok, Bool.and_eq_true, decide_eq_true_eq] at h
    obtain ⟨⟨hc, hne⟩, hds⟩ := h
    subst hc
    simp [isQualIdChars, hne, hds]

theorem upperChars_of_upperPropTok {l : List Char} (h : isUpperPropTok l = true) :
    upperChars l = l := by
  cases l with
  | nil => rfl
  | cons c ds =>
    simp only [isUpperPropTok, Bool.and_eq_true, decide_eq_true_eq] at h
    obtain ⟨⟨hc, _⟩, hds⟩ := h
    subst hc
    simp [upperChars, map_toUpper_digits hds]

theorem upperChars_of_upperQualTok {l : List Char} (h : isUpperQualTok l = true) :
    upperChars l = l := by
  cases l with
  | nil => rfl
  | cons c ds =>
    simp only [isUpperQualTok, Bool.and_eq_true, decide_eq_true_eq] at h
    obtain ⟨⟨hc, _⟩, hds⟩ := h
    subst hc
    simp [upperChars, map_toUpper_digits hds]

theorem propTok_no_slash {l : List Char} (h : isPropIdChars l = true) : '/' ∉ l := by
  obtain ⟨c, ds, hl, hc, _, hds⟩ := propTok_shape h
  subst hl
  intro hmem
  rcases List.mem_cons.mp hmem with h1 | h1
  · rcases hc with h2 | h2 <;> rw [h2] at h1 <;> cases h1
  · exact (isDigitC_facts (List.all_eq_true.mp hds _ h1)).1 rfl

theorem qualTok_no_slash {l : List Char} (h : isQualIdChars l = true) : '/' ∉ l := by
  obtain ⟨c, ds, hl, hc, _, hds⟩ := qualTok_shape h
  subst hl
  intro hmem
  rcases List.mem_cons.mp hmem with h1 | h1
  · rcases hc with h2 | h2 <;> rw [h2] at h1 <;> cases h1
  · exact (isDigitC_facts (List.all_eq_true.mp hds _ h1)).1 rfl

theorem propTok_no_ws {l : List Char} (h : isPropIdChars l = true) :
    ∀ x ∈ l, isWS x = false := by
  obtain ⟨c, ds, hl, hc, _, hds⟩ := propTok_shape h
  subst hl
  intro x hx
  rcases List.mem_cons.mp hx with h1 | h1
  · rcases hc with h2 | h2 <;> subst h2 <;> subst h1 <;> decide
  · exact (isDigitC_facts (List.all_eq_true.mp hds _ h1)).2.1

theorem qualTok_no_ws {l : List Char} (h : isQualIdChars l = true) :
    ∀ x ∈ l, isWS x = false := by
  obtain ⟨c, ds, hl, hc, _, hds⟩ := qualTok_shape h
  subst hl
  intro x hx
  rcases List.mem_cons.mp hx with h1 | h1
  · rcases hc with h2 | h2 <;> subst h2 <;> subst h1 <;> decide
  · exact (isDigitC_facts (List.all_eq_true.mp hds _ h1)).2.1

theorem cons_ne_of_head_ne {a b : Char} {t u : List Char} (h : a ≠ b) : a :: t ≠ b :: u := by
  intro he
  injection he with h1 _
  exact h h1

theorem columnType_new_of_head_p (s : String) {c : Char} {ds : List Char}
    (hdata : s.data = c :: ds) (hc : c.toLower = 'p') :
    ColumnType.new s =
      (if isPropIdChars s.data then ColumnType.property (strUpper s)
       else
         match splitOnChar '/' s.data with
         | [a, b] =>
           let a := trimChars a
           let b := trimChars b
           if isPropIdChars a ∧ isPropIdChars b then
             ColumnType.propertyQualifier (String.mk (upperChars a)) (String.mk (upperChars b))
           else ColumnType.new.fieldOrUnknown s
         | [a, b, c] =>
           let a := trimChars a
           let b := trimChars b
           let c := trimChars c
           if isPropIdChars a ∧ isQualIdChars b ∧ isPropIdChars c then
             ColumnType.propertyQualifierValue (String.mk (upperChars a))
               (String.mk (upperChars b)) (String.mk (upperChars c))
           else ColumnType.new.fieldOrUnknown s
         | _ => ColumnType.new.fieldOrUnknown s) := by
  unfold ColumnType.new
  rw [hdata]
  simp only [lowerChars, List.map_cons, hc]
  rw [if_neg (cons_ne_of_head_ne (by decide)),
    if_neg (cons_ne_of_head_ne (by decide)),
    if_neg (cons_ne_of_head_ne (by decide)),
    if_neg (cons_ne_of_head_ne (by decide)),
    show labelLangCapture ('p' :: List.map Char.toLower ds) = none from rfl]

theorem new_single_tok {s : String} (h : isPropIdChars s.data = true) :
    ColumnType.new s = ColumnType.property (strUpper s) := by
  obtain ⟨c, ds, hdata, hc, _, _⟩ := propTok_shape h
  have hcl : c.toLower = 'p' := by rcases hc with h1 | h1 <;> subst h1 <;> decide
  rw [columnType_new_of_head_p s hdata hcl, if_pos h]

theorem all_digits_append_slash_false {ds b : List Char} :
    (ds ++ '/' :: b).all isDigitC = false := by
  have h : isDigitC '/' = false := by decide
  simp [List.all_append, List.all_cons, h]

theorem new_pq {s : String} {a b : List Char} (hdata : s.data = a ++ '/' :: b)
    (ha : isPropIdChars a = true) (hb : isPropIdChars b = true) :
    ColumnType.new s =
      ColumnType.propertyQualifier (String.mk (upperChars a)) (String.mk (upperChars b)) := by
  obtain ⟨c, ds, hae, hc, _, hds⟩ := propTok_shape ha
  have hcl : c.toLower = 'p' := by rcases hc with h1 | h1 <;> subst h1 <;> decide
  have hdata' : s.data = c :: (ds ++ '/' :: b) := by rw [hdata, hae]; rfl
  rw [columnType_new_of_head_p s hdata' hcl]
  have hnotprop : isPropIdChars s.data = false := by
    rw [hdata']
    have hall : (ds ++ '/' :: b).all isDigitC = false := all_digits_append_slash_false
    simp only [isPropIdChars, hall, Bool.and_false]
  rw [hnotprop]
  simp only [Bool.false_eq_true, if_false]
  rw [hdata, splitOnChar_append (propTok_no_slash ha), splitOnChar_not_mem (propTok_no_slash hb)]
  simp only [trimChars_eq_self (propTok_no_ws ha), trimChars_eq_self (propTok_no_ws hb)]
  rw [if_pos ⟨ha, hb⟩]

theorem new_pqv {s : String} {a b c : List Char} (hdata : s.data = a ++ '/' :: b ++ '/' :: c)
    (ha : isPropIdChars a = true) (hb : isQualIdChars b = true)
    (hc : isPropIdChars c = true) :
    ColumnType.new s =
      ColumnType.propertyQualifierValue (String.mk (upperChars a)) (String.mk (upperChars b))
        (String.mk (upperChars c)) := by
  obtain ⟨ch, ds, hae, hch, _, hds⟩ := propTok_shape ha
  have hcl : ch.toLower = 'p' := by rcases hch with h1 | h1 <;> subst h1 <;> decide
  have hdata' : s.data = ch :: (ds ++ '/' :: b ++ '/' :: c) := by
    rw [hdata, hae]; simp
  rw [columnType_new_of_head_p s hdata' hcl]
  have hnotprop : isPropIdChars s.data = false := by
    rw [hdata']
    have hslash : isDigitC '/' = false := by decide
    have hall : (ds ++ '/' :: b ++ '/' :: c).all isDigitC = false := by
      simp [List.all_append, List.all_cons, hslash]
    simp only [isPropIdChars, hall, Bool.and_false]
  rw [hnotprop]
  simp only [Bool.false_eq_true, if_false]
  have hsplit : splitOnChar '/' s.data = [a, b, c] := by
    rw [hdata]
    rw [show a ++ '/' :: b ++ '/' :: c = a ++ '/' :: (b ++ '/' :: c) by simp]
    rw [splitOnChar_append (propTok_no_slash ha),
      splitOnChar_append (qualTok_no_slash hb), splitOnChar_not_mem (propTok_no_slash hc)]
  rw [hsplit]
  simp only [trimChars_eq_self (propTok_no_ws ha), trimChars_eq_self (qualTok_no_ws hb),
    trimChars_eq_self (propTok_no_ws hc)]
  rw [if_pos ⟨ha, hb, hc⟩]

/-- C6: a column spec string matching the property grammar resolves to a
descriptor whose property and entity identifiers are uppercase, and
resolving the textual form of the resolved descriptor again yields the same
descriptor (idempotence). -/
theorem column_resolution_upper_idempotent (s : String) (h : propGrammar s = true) :
    upperIds (ColumnType.new s) = true ∧
    ColumnType.new (renderColumn (ColumnType.new s)) = ColumnType.new s := by
  unfold propGrammar at h
  have hjoin : joinSegs '/' (splitOnChar '/' s.data) = s.data := splitOnChar_join
  cases hsplit : splitOnChar '/' s.data with
  | nil => rw [hsplit] at h; cases h
  | cons a t =>
    rw [hsplit] at h hjoin
    cases t with
    | nil =>
      -- single property token
      simp only [joinSegs] at hjoin
      have hprop : isPropIdChars s.data = true := by rw [← hjoin]; exact h
      have h1 := new_single_tok hprop
      have hup : isUpperPropTok (upperChars s.data) = true := propTok_upper hprop
      constructor
      · rw [h1]; exact hup
      · rw [h1]
        have h2 : renderColumn (ColumnType.property (strUpper s)) = strUpper s := rfl
        rw [h2, @new_single_tok (strUpper s) (upperPropTok_isPropId hup)]
        show ColumnType.property (String.mk (upperChars (upperChars s.data))) = _
        rw [upperChars_of_upperPropTok hup]
        rfl
    | cons b t2 =>
      cases t2 with
      | nil =>
        -- property/qualifier
        simp only [joinSegs] at hjoin
        simp only [Bool.and_eq_true] at h
        obtain ⟨ha, hb⟩ := h
        have h1 := new_pq hjoin.symm ha hb
        have hupa : isUpperPropTok (upperChars a) = true := propTok_upper ha
        have hupb : isUpperPropTok (upperChars b) = true := propTok_upper hb
        constructor
        · rw [h1]
          simp [upperIds, hupa, hupb]
        · rw [h1]
          have hrender : (renderColumn (ColumnType.propertyQualifier (String.mk (upperChars a))
              (String.mk (upperChars b)))).data = upperChars a ++ '/' :: upperChars b := by
            simp [renderColumn, String.data_append]
          rw [new_pq hrender (upperPropTok_isPropId hupa) (upperPropTok_isPropId hupb),
            upperChars_of_upperPropTok hupa, upperChars_of_upperPropTok hupb]
      | cons c t3 =>
        cases t3 with
        | nil =>
          -- property/qualifier-entity/property
          have hjoin' : s.data = a ++ '/' :: b ++ '/' :: c := by
            simp only [joinSegs] at hjoin
            rw [← hjoin]; simp
          simp only [Bool.and_eq_true] at h
          obtain ⟨⟨ha, hb⟩, hc⟩ := h
          have h1 := new_pqv hjoin' ha hb hc
          have hupa : isUpperPropTok (upperChars a) = true := propTok_upper ha
          have hupb : isUpperQualTok (upperChars b) = true := qualTok_upper hb
          have hupc : isUpperPropTok (upperChars c) = true := propTok_upper hc
          constructor
          · rw [h1]
            simp [upperIds, hupa, hupb, hupc]
          · rw [h1]
            have hrender : (renderColumn (ColumnType.propertyQualifierValue
                (String.mk (upperChars a)) (String.mk (upperChars b))
                (String.mk (upperChars c)))).data
                = upperChars a ++ '/' :: upperChars b ++ '/' :: upperChars c := by
              simp [renderColumn, String.data_append]
            rw [new_pqv hrender (upperPropTok_isPropId hupa) (upperQualTok_isQualId hupb)
                (upperPropTok_isPropId hupc),
              upperChars_of_upperPropTok hupa, upperChars_of_upperQualTok hupb,
              upperChars_of_upperPropTok hupc]
        | cons d t4 => simp at h

/-- C6 witness: the resolution theorem applied to the mixed-case spec
string `p31/q5/P7`. -/
theorem column_resolution_upper_idempotent_witness :
    upperIds (ColumnType.new "p31/q5/P7") = true ∧
    ColumnType.new (renderColumn (ColumnType.new "p31/q5/P7")) = ColumnType.new "p31/q5/P7" :=
  column_resolution_upper_idempotent "p31/q5/P7" (by decide)

/-! ## Claim C2: descending sort reverses the stable ascending order -/

theorem patch_sort_results_eq (env : Env) (st : PState) (h : env.sort ≠ SortMode.noneM) :
    patch_sort_results env st =
      .ok { st with
            results :=
              if env.sort_ascending then sorted_rows env st
              else (sorted_rows env st).reverse } := by
  unfold patch_sort_results
  cases henv : env.sort with
  | noneM => exact absurd henv h
  | label =>
    have hlen : st.results.length = (sort_keys env st).length := by
      simp [sort_keys, henv, List.length_map]
    rw [if_neg (fun hne => hne hlen)]
  | familyName =>
    have hlen : st.results.length = (sort_keys env st).length := by
      simp [sort_keys, henv, List.length_map]
    rw [if_neg (fun hne => hne hlen)]
  | property p =>
    have hlen : st.results.length = (sort_keys env st).length := by
      simp [sort_keys, henv, List.length_map]
    rw [if_neg (fun hne => hne hlen)]

theorem rowLE_of_compare_eq {dt : SnakDataType} {a b : ResultRow}
    (h : a.compare_to b dt = Ordering.eq) : rowLE dt a b := by
  simp [rowLE, h]

/-- C2: when descending order is requested the final row order is the exact
reverse of the stably-sorted ascending order; consequently a pair of rows
with equal sortkeys appears in reversed (not original) relative order in the
descending output. -/
theorem patch_sort_descending_reverses (env : Env) (st : PState)
    (h : env.sort ≠ SortMode.noneM) :
    patch_sort_results { env with sort_ascending := false } st
      = .ok { st with results := (sorted_rows env st).reverse }
  ∧ patch_sort_results { env with sort_ascending := true } st
      = .ok { st with results := sorted_rows env st }
  ∧ ∀ a b : ResultRow, ResultRow.compare_to a b (sort_datatype env st) = Ordering.eq →
      List.Sublist [a, b] (keyed_rows env st) →
      List.Sublist [b, a] ((sorted_rows env st).reverse) := by
  refine ⟨?_, ?_, ?_⟩
  · exact patch_sort_results_eq { env with sort_ascending := false } st h
  · exact patch_sort_results_eq { env with sort_ascending := true } st h
  · intro a b heq hsub
    have hr : rowLE (sort_datatype env st) a b := rowLE_of_compare_eq heq
    have h2 := List.pair_sublist_insertionSort hr hsub
    have h3 := h2.reverse
    simpa using h3

/-- C2 counterexample: under the descending label sort, two rows with equal
sortkeys come out as Q2, Q1 — the reverse of their original (ascending)
relative order, refuting the claim that equal-key groups retain their
ascending order after the reversal. -/
theorem patch_sort_equal_keys_flipped :
    patch_sort_results c2Env c2St = .ok { c2St with results := [c2r2, c2r1] }
  ∧ c2r1.sortkey = c2r2.sortkey
  ∧ [c2r2, c2r1] ≠ [c2r1, c2r2] := by
  refine ⟨rfl, rfl, ?_⟩
  intro heq
  exact absurd (congrArg (List.map ResultRow.entity_id) heq) (by decide)

/-- C2 witness: the amended theorem applied to the concrete two-row
fixture. -/
theorem patch_sort_descending_reverses_witness :
    patch_sort_results { c2Env with sort_ascending := false } c2St
      = .ok { c2St with results := (sorted_rows c2Env c2St).reverse }
  ∧ List.Sublist [c2r2, c2r1] ((sorted_rows c2Env c2St).reverse) :=
  ⟨(patch_sort_descending_reverses c2Env c2St (by decide)).1,
   (patch_sort_descending_reverses c2Env c2St (by decide)).2.2 c2r1 c2r2 rfl
     (List.Sublist.refl [c2r1, c2r2])⟩

/-! ## Claim C1: the patch pipeline's fixed stage order and error abort -/

theorem run_stages_cons (g : PState → Except String PState)
    (l : List (PState → Except String PState)) (st : PState) :
    run_stages (g :: l) st = (g st).bind (run_stages l) := rfl

theorem run_stages_append (l₁ l₂ : List (PState → Except String PState)) :
    ∀ st, run_stages (l₁ ++ l₂) st = (run_stages l₁ st).bind (run_stages l₂) := by
  induction l₁ with
  | nil => intro st; rfl
  | cons g t ih =>
    intro st
    rw [List.cons_append, run_stages_cons, run_stages_cons]
    cases hg : g st with
    | ok s => simp [Except.bind, ih s]
    | error e => simp [Except.bind]

/-- C1: `patch_results` is exactly the in-order composition of the six
stages — gather/load, redlinks-only filter, link localization, redlinks
cache warm, shadow-file removal, sort — the sort stage is the last stage and
is a no-op under sort mode none, and a stage error aborts the run with that
error, executing no later stage. -/
theorem patch_results_pipeline (env : Env) (st : PState) :
    patch_results env st = run_stages (patch_stages env) st
  ∧ patch_stages env =
      [gather_and_load_items env, patch_redlinks_only env, patch_items_to_local_links env,
       patch_redlinks env, patch_remove_shadow_files env, patch_sort_results env]
  ∧ (patch_stages env).getLast? = some (patch_sort_results env)
  ∧ (env.sort = SortMode.noneM → ∀ t, patch_sort_results env t = Except.ok t)
  ∧ ∀ (pre : List (PState → Except String PState)) (f : PState → Except String PState)
      (post : List (PState → Except String PState)) (s' : PState) (e : String),
      patch_stages env = pre ++ f :: post → run_stages pre st = .ok s' →
      f s' = .error e → patch_results env st = .error e := by
  refine ⟨rfl, rfl, rfl, ?_, ?_⟩
  · intro hnone t
    simp [patch_sort_results, hnone]
  · intro pre f post s' e happ hpre hf
    rw [show patch_results env st = run_stages (patch_stages env) st from rfl, happ,
      run_stages_append, hpre]
    show run_stages (f :: post) s' = Except.error e
    rw [run_stages_cons, hf]
    rfl

/-- C1 witness: the abort clause applied after the successful first stage;
the failing second stage's error is the run's result. -/
theorem patch_results_pipeline_witness :
    patch_results c1Env c1St = .error "patch_redlinks_only: missing entity" :=
  (patch_results_pipeline c1Env c1St).2.2.2.2
    [gather_and_load_items c1Env] (patch_redlinks_only c1Env)
    [patch_items_to_local_links c1Env, patch_redlinks c1Env,
     patch_remove_shadow_files c1Env, patch_sort_results c1Env]
    c1St "patch_redlinks_only: missing entity" rfl rfl rfl

/-! ## Claim C9: the redlinks-only filter -/

theorem filterRedOnly_ok (store : EntityStore) (wiki : String) :
    ∀ rows : List ResultRow, (∀ r ∈ rows, (getEntity store r.entity_id).isSome = true) →
      filterRedOnly store wiki rows = .ok (rows.filter (keep_row_red_only store wiki)) := by
  intro rows h
  induction rows with
  | nil => rfl
  | cons r t ih =>
    have hr := h r (List.mem_cons_self _ _)
    cases hg : getEntity store r.entity_id with
    | none => rw [hg] at hr; cases hr
    | some e =>
      simp only [filterRedOnly, hg]
      rw [ih (fun x hx => h x (List.mem_cons_of_mem _ hx))]
      simp [Except.map, List.filter_cons, keep_row_red_only, hg]

/-- C9: under link-mode red_only (and with every row's entity loaded, which
the code otherwise `unwrap`-panics on), the stage keeps exactly the rows
whose entity has no sitelink to the current wiki; under any other link-mode
the state passes through unchanged. -/
theorem patch_redlinks_only_filters (env : Env) (st : PState)
    (h : ∀ r ∈ st.results, (getEntity st.entities r.entity_id).isSome = true) :
    (env.links = LinksType.redOnly →
      patch_redlinks_only env st
        = .ok { st with results := st.results.filter (keep_row_red_only st.entities env.wiki) })
  ∧ (env.links ≠ LinksType.redOnly → patch_redlinks_only env st = .ok st) := by
  constructor
  · intro hl
    unfold patch_redlinks_only
    rw [if_neg (by simp [hl]), filterRedOnly_ok _ _ _ h]
  · intro hl
    unfold patch_redlinks_only
    rw [if_pos hl]

/-- C9 witness: the filter over rows for A (sitelinked) and B (not) keeps
only B's row. -/
theorem patch_redlinks_only_filters_witness :
    patch_redlinks_only c9Env c9St = .ok { c9St with results := [c9RowB] } :=
  (patch_redlinks_only_filters c9Env c9St (by decide)).1 rfl

/-! ## Claim C3: shadow-file removal run twice -/

theorem keepPart_nil (p : ResultCellPart) : keepPart [] p = true := by
  cases p <;> simp [keepPart]

theorem filter_keepPart_nil (parts : List ResultCellPart) :
    parts.filter (keepPart []) = parts :=
  List.filter_eq_self.mpr (fun p _ => keepPart_nil p)

theorem remove_shadow_parts_nil (rows : List ResultRow) :
    remove_shadow_parts [] rows = rows := by
  unfold remove_shadow_parts
  induction rows with
  | nil => rfl
  | cons r t ih =>
    rw [List.map_cons, ih]
    congr 1
    have hcells : ∀ cells : List ResultCell,
        cells.map (fun cell => { cell with parts := cell.parts.filter (keepPart []) }) = cells := by
      intro cells
      induction cells with
      | nil => rfl
      | cons c u ihc => rw [List.map_cons, ihc, filter_keepPart_nil]
    rw [hcells]

theorem filterMap_partFile_filter (shadow : List String) :
    ∀ parts : List ResultCellPart,
      (parts.filter (keepPart shadow)).filterMap partFile
        = (parts.filterMap partFile).filter (fun f => ¬ shadow.contains f) := by
  intro parts
  induction parts with
  | nil => rfl
  | cons p rest ih =>
    cases p with
    | file f =>
      by_cases hm : f ∈ shadow
      · simp [keepPart, partFile, List.filter_cons, List.filterMap_cons, hm, ih]
      · simp [keepPart, partFile, List.filter_cons, List.filterMap_cons, hm, ih]
    | number => simp [keepPart, partFile, List.filter_cons, List.filterMap_cons, ih]
    | entity id t => simp [keepPart, partFile, List.filter_cons, List.filterMap_cons, ih]
    | localLink a b => simp [keepPart, partFile, List.filter_cons, List.filterMap_cons, ih]
    | time t => simp [keepPart, partFile, List.filter_cons, List.filterMap_cons, ih]
    | location a b => simp [keepPart, partFile, List.filter_cons, List.filterMap_cons, ih]
    | uri u => simp [keepPart, partFile, List.filter_cons, List.filterMap_cons, ih]
    | externalId a b => simp [keepPart, partFile, List.filter_cons, List.filterMap_cons, ih]
    | text t => simp [keepPart, partFile, List.filter_cons, List.filterMap_cons, ih]
    | snakList v => simp [keepPart, partFile, List.filter_cons, List.filterMap_cons, ih]

theorem collect_files_remove (shadow : List String) :
    ∀ rows : List ResultRow,
      collect_files (remove_shadow_parts shadow rows)
        = (collect_files rows).filter (fun f => ¬ shadow.contains f) := by
  intro rows
  induction rows with
  | nil => rfl
  | cons r t ih =>
    unfold collect_files at *
    unfold remove_shadow_parts at *
    simp only [List.map_cons, List.flatMap_cons, List.filter_append, ih]
    congr 1
    induction r.cells with
    | nil => rfl
    | cons c u ihc =>
      simp only [List.map_cons, List.flatMap_cons, List.filter_append, ihc,
        filterMap_partFile_filter]

theorem shadow_second_collect_not_local (env : Env) (st : PState)
    (hw : env.wikis_to_check_for_shadow_images.contains env.wiki = true) :
    ∀ f ∈ collect_files (shadow_step env st).results, env.couldBeLocal f = false := by
  intro f hf
  have hmemw : env.wiki ∈ env.wikis_to_check_for_shadow_images := List.elem_iff.mp hw
  unfold shadow_step at hf
  rw [if_neg (by simp [hmemw])] at hf
  simp only at hf
  rw [collect_files_remove, List.mem_filter] at hf
  obtain ⟨hmem, hnc⟩ := hf
  have hnc' : ¬ ((sortStrings ((dedupAdj (sortStrings (collect_files st.results))).filter
      env.couldBeLocal)).contains f = true) := by simpa using hnc
  by_contra hcl
  simp only [Bool.not_eq_false] at hcl
  have hfiles : f ∈ dedupAdj (sortStrings (collect_files st.results)) :=
    mem_dedupAdj.mpr (mem_sortStrings.mpr hmem)
  have hshadow : f ∈ sortStrings ((dedupAdj (sortStrings (collect_files st.results))).filter
      env.couldBeLocal) :=
    mem_sortStrings.mpr (List.mem_filter.mpr ⟨hfiles, hcl⟩)
  exact hnc' (List.elem_iff.mpr hshadow)

/-- C3 (amended): running the shadow-file stage twice with the same per-file
answers leaves the row collection of the first run unchanged, but the
recorded shadow-file list of the second run is the one recomputed from the
already-filtered collection — empty whenever the wiki is checked at all (for
an unchecked wiki the stage is the identity both times). -/
theorem shadow_step_twice (env : Env) (st : PState) :
    (shadow_step env (shadow_step env st)).results = (shadow_step env st).results
  ∧ (env.wikis_to_check_for_shadow_images.contains env.wiki = true →
      (shadow_step env (shadow_step env st)).shadow_files = [])
  ∧ (env.wikis_to_check_for_shadow_images.contains env.wiki = false →
      shadow_step env (shadow_step env st) = shadow_step env st) := by
  by_cases hw : env.wikis_to_check_for_shadow_images.contains env.wiki = true
  · have hmemw : env.wiki ∈ env.wikis_to_check_for_shadow_images := List.elem_iff.mp hw
    have hfilter : (dedupAdj (sortStrings (collect_files
        (shadow_step env st).results))).filter env.couldBeLocal = [] := by
      apply List.filter_eq_nil_iff.mpr
      intro f hf
      have hmem : f ∈ collect_files (shadow_step env st).results :=
        mem_sortStrings.mp (mem_dedupAdj.mp hf)
      simp [shadow_second_collect_not_local env st hw f hmem]
    have hstep : shadow_step env (shadow_step env st) =
        { shadow_step env st with
          shadow_files := sortStrings ((dedupAdj (sortStrings (collect_files
            (shadow_step env st).results))).filter env.couldBeLocal),
          results := remove_shadow_parts (sortStrings ((dedupAdj (sortStrings (collect_files
            (shadow_step env st).results))).filter env.couldBeLocal))
            (shadow_step env st).results } := by
      conv_lhs => unfold shadow_step
      rw [if_neg (by simp [hmemw])]
      rfl
    refine ⟨?_, fun _ => ?_, fun hcon => by rw [hcon] at hw; exact Bool.noConfusion hw⟩
    · rw [hstep]
      simp only [hfilter]
      rw [show sortStrings [] = [] from rfl, remove_shadow_parts_nil]
    · rw [hstep]
      simp only [hfilter]
      rfl
  · simp only [Bool.not_eq_true] at hw
    have hid : shadow_step env st = st := by
      unfold shadow_step
      rw [if_pos (fun h => by rw [hw] at h; exact Bool.noConfusion h)]
    refine ⟨by rw [hid, hid], fun hcon => by rw [hcon] at hw; exact Bool.noConfusion hw,
      fun _ => by rw [hid, hid]⟩

/-- C3 counterexample: the first run records shadow file A (and removes the
part); the second run, with the same oracle answers, records the empty list,
so the recorded shadow-file list is not the same. -/
theorem shadow_step_not_idempotent_list :
    (shadow_step c3Env c3St).shadow_files = ["A"]
  ∧ (shadow_step c3Env (shadow_step c3Env c3St)).shadow_files = []
  ∧ (["A"] : List String) ≠ [] :=
  ⟨rfl, rfl, by decide⟩

/-- C3 witness: the amended theorem applied to the one-file fixture. -/
theorem shadow_step_twice_witness :
    (shadow_step c3Env (shadow_step c3Env c3St)).results = (shadow_step c3Env c3St).results
  ∧ (shadow_step c3Env (shadow_step c3Env c3St)).shadow_files = [] :=
  ⟨(shadow_step_twice c3Env c3St).1, (shadow_step_twice c3Env c3St).2.1 rfl⟩

/-! ## Claim C8: query-result parsing keeps, skips and fails as specified -/

theorem parse_binding_row_ok :
    ∀ kvs : List (String × Json),
      (∀ kv ∈ kvs, (SparqlValue.new_from_json kv.2).isSome = true) →
      parse_binding_row kvs
        = .ok (kvs.filterMap
            (fun kv => (SparqlValue.new_from_json kv.2).map (fun v => (kv.1, v)))) := by
  intro kvs h
  induction kvs with
  | nil => rfl
  | cons kv rest ih =>
    have hkv := h kv (List.mem_cons_self _ _)
    cases kv with
    | mk k j =>
      cases hj : SparqlValue.new_from_json j with
      | none => rw [hj] at hkv; cases hkv
      | some v =>
        simp only [parse_binding_row, hj]
        rw [ih (fun x hx => h x (List.mem_cons_of_mem _ hx))]
        simp [Except.map, List.filterMap_cons, hj]

theorem parse_binding_row_error :
    ∀ kvs : List (String × Json),
      (∃ kv ∈ kvs, SparqlValue.new_from_json kv.2 = none) →
      ∃ e, parse_binding_row kvs = .error e := by
  intro kvs h
  induction kvs with
  | nil => simp at h
  | cons kv rest ih =>
    obtain ⟨kv0, hmem, hnone⟩ := h
    cases kv with
    | mk k j =>
      cases hj : SparqlValue.new_from_json j with
      | none =>
        exact ⟨"Cant parse SPARQL value: " ++ k, by simp [parse_binding_row, hj]⟩
      | some v =>
        rcases List.mem_cons.mp hmem with he | hm
        · subst he; rw [hj] at hnone; cases hnone
        · obtain ⟨e, he2⟩ := ih ⟨kv0, hm, hnone⟩
          exact ⟨e, by simp [parse_binding_row, hj, he2, Except.map]⟩

theorem parse_bindings_ok :
    ∀ bindings : List Json,
      (∀ b ∈ bindings, b.asObj.isSome = true) →
      (∀ b ∈ bindings, ∀ kv ∈ b.asObj.getD ([] : List (String × Json)),
        (SparqlValue.new_from_json kv.2).isSome = true) →
      parse_bindings bindings
        = .ok ((bindings.map classify_row).filter (fun r => !r.isEmpty)) := by
  intro bindings hobj hall
  induction bindings with
  | nil => rfl
  | cons b rest ih =>
    have hb := hobj b (List.mem_cons_self _ _)
    cases ho : b.asObj with
    | none => rw [ho] at hb; cases hb
    | some kvs =>
      have hrow := parse_binding_row_ok kvs
        (fun kv hkv => by
          have := hall b (List.mem_cons_self _ _) kv
          rw [ho] at this
          exact this hkv)
      simp only [parse_bindings, ho, hrow]
      rw [ih (fun x hx => hobj x (List.mem_cons_of_mem _ hx))
        (fun x hx => hall x (List.mem_cons_of_mem _ hx))]
      have hclass : classify_row b
          = kvs.filterMap (fun kv => (SparqlValue.new_from_json kv.2).map (fun v => (kv.1, v))) := by
        simp [classify_row, ho]
      simp only [Except.map, List.map_cons, List.filter_cons, hclass]
      by_cases hre : (kvs.filterMap
          (fun kv => (SparqlValue.new_from_json kv.2).map (fun v => (kv.1, v)))).isEmpty
      · simp [hre]
      · simp [hre]

theorem parse_bindings_error :
    ∀ bindings : List Json,
      (∃ b ∈ bindings, ∃ kv ∈ b.asObj.getD ([] : List (String × Json)),
        SparqlValue.new_from_json kv.2 = none) →
      ∃ e, parse_bindings bindings = .error e := by
  intro bindings hex
  induction bindings with
  | nil => simp at hex
  | cons b rest ih =>
    obtain ⟨b0, hbmem, kv, hkvmem, hnone⟩ := hex
    cases ho : b.asObj with
    | none => exact ⟨"parse_sparql: binding is not an object", by simp [parse_bindings, ho]⟩
    | some kvs =>
      rcases List.mem_cons.mp hbmem with he | hm
      · subst he
        obtain ⟨e, he2⟩ := parse_binding_row_error kvs ⟨kv, by rwa [ho] at hkvmem, hnone⟩
        exact ⟨e, by simp [parse_bindings, ho, he2]⟩
      · obtain ⟨e, he2⟩ := ih ⟨b0, hm, kv, hkvmem, hnone⟩
        cases hrow : parse_binding_row kvs with
        | error e2 => exact ⟨e2, by simp [parse_bindings, ho, hrow]⟩
        | ok row => exact ⟨e, by simp [parse_bindings, ho, hrow, he2, Except.map]⟩

/-- C8: with the head variable present, binding rows parse in original order
with no deduplication, rows whose object has no classified member are
skipped, and any unclassifiable value makes the whole parse fail. -/
theorem parse_sparql_classification (j : Json) (v0 : String) (vs bindings : List Json)
    (hvars : (j.get "head").get "vars" = Json.arr (Json.str v0 :: vs))
    (hbind : (j.get "results").get "bindings" = Json.arr bindings)
    (hobj : ∀ b ∈ bindings, b.asObj.isSome = true) :
    ((∀ b ∈ bindings, ∀ kv ∈ b.asObj.getD ([] : List (String × Json)),
        (SparqlValue.new_from_json kv.2).isSome = true) →
      parse_sparql j = .ok (v0, (bindings.map classify_row).filter (fun r => !r.isEmpty)))
  ∧ ((∃ b ∈ bindings, ∃ kv ∈ b.asObj.getD ([] : List (String × Json)),
        SparqlValue.new_from_json kv.2 = none) →
      ∃ e, parse_sparql j = .error e) := by
  have hps : parse_sparql j = (parse_bindings bindings).map (fun rows => (v0, rows)) := by
    unfold parse_sparql
    rw [hvars, hbind]
    rfl
  constructor
  · intro hall
    rw [hps, parse_bindings_ok bindings hobj hall]
    rfl
  · intro hex
    obtain ⟨e, he⟩ := parse_bindings_error bindings hex
    exact ⟨e, by rw [hps, he]; rfl⟩

/-- C8 witness: the concrete document parses to the first variable and the
two non-empty rows, in order, duplicate kept. -/
theorem parse_sparql_classification_witness :
    parse_sparql c8Json
      = .ok ("item", [[("item", SparqlValue.entity "Q1")], [("item", SparqlValue.entity "Q1")]]) :=
  (parse_sparql_classification c8Json "item" [] c8Bindings rfl rfl (by decide)).1 (by decide)

/-! ## Claim C7: geo point literals put the first number in lon, the second
in lat -/

theorem isDigitC_ne_space {c : Char} (h : isDigitC c = true) : c ≠ ' ' :=
  (isDigitC_facts h).2.2

theorem pointNumBody_no_space {m : List Char} (h : pointNumBody m = true) : ' ' ∉ m := by
  cases m with
  | nil => cases h
  | cons c rest =>
    simp only [pointNumBody, Bool.and_eq_true, List.all_eq_true] at h
    obtain ⟨⟨hc, _⟩, hall⟩ := h
    intro hmem
    rcases List.mem_cons.mp hmem with he | hm
    · exact isDigitC_ne_space hc he.symm
    · have := hall _ hm
      simp only [Bool.or_eq_true, decide_eq_true_eq] at this
      rcases this with hd | hd
      · exact isDigitC_ne_space hd rfl
      · cases hd

theorem pointTok_no_space {l : List Char} (h : pointNumTok l = true) : ' ' ∉ l := by
  cases l with
  | nil => cases h
  | cons c rest =>
    by_cases hc : c = '-'
    · subst hc
      rw [pointNumTok, if_pos rfl] at h
      intro hmem
      rcases List.mem_cons.mp hmem with he | hm
      · cases he
      · exact pointNumBody_no_space h hm
    · rw [pointNumTok, if_neg hc] at h
      exact pointNumBody_no_space h

theorem pointCapture_concat (a b : String) (hta : pointNumTok a.data = true)
    (htb : pointNumTok b.data = true) :
    pointCapture (("Point(" ++ a ++ " " ++ b ++ ")").data) = some (a.data, b.data) := by
  have hdata : ("Point(" ++ a ++ " " ++ b ++ ")").data
      = "Point(".data ++ ((a.data ++ ' ' :: b.data) ++ [')']) := by
    simp [String.data_append, List.append_assoc]
  have h1 : pointCapture (("Point(" ++ a ++ " " ++ b ++ ")").data)
      = pointCaptureRest ((a.data ++ ' ' :: b.data) ++ [')']) := by
    unfold pointCapture
    rw [hdata, dropPrefixChars_append]
    rfl
  have h2 : pointCaptureRest ((a.data ++ ' ' :: b.data) ++ [')'])
      = pointCaptureTokens (a.data ++ ' ' :: b.data) := by
    unfold pointCaptureRest
    rw [splitLastChar_append]
    rfl
  have h3 : pointCaptureTokens (a.data ++ ' ' :: b.data) = some (a.data, b.data) := by
    unfold pointCaptureTokens
    rw [splitOnChar_append (pointTok_no_space hta), splitOnChar_not_mem (pointTok_no_space htb)]
    dsimp only
    rw [hta, htb]
    rfl
  rw [h1, h2, h3]

/-- C7: for a wkt literal `Point(<first> <second>)` the first captured
number becomes the longitude and the second the latitude of the resulting
(lat, lon) pair; concretely, `Point(13.4 52.5)` yields lat 52.5 and lon
13.4. -/
theorem sparql_geo_point :
    (∀ (a b : String) (da db : DecNum), pointNumTok a.data = true → pointNumTok b.data = true →
      parseF64 a = some da → parseF64 b = some db →
      SparqlValue.new_from_json (mkWktJson ("Point(" ++ a ++ " " ++ b ++ ")"))
        = some (.location ⟨db, da⟩))
  ∧ SparqlValue.new_from_json (mkWktJson "Point(13.4 52.5)")
      = some (.location ⟨⟨false, 525, 1⟩, ⟨false, 134, 1⟩⟩)
  ∧ DecNum.toRat ⟨false, 525, 1⟩ = 52.5
  ∧ DecNum.toRat ⟨false, 134, 1⟩ = 13.4 := by
  refine ⟨?_, by decide, by norm_num [DecNum.toRat], by norm_num [DecNum.toRat]⟩
  intro a b da db hta htb hpa hpb
  have h0 : SparqlValue.new_from_json (mkWktJson ("Point(" ++ a ++ " " ++ b ++ ")")) =
      (match pointCapture (("Point(" ++ a ++ " " ++ b ++ ")").data) with
       | some (t1, t2) =>
         match parseF64 (String.mk t2), parseF64 (String.mk t1) with
         | some lat, some lon => some (.location ⟨lat, lon⟩)
         | _, _ => none
       | none => none) := rfl
  rw [h0, pointCapture_concat a b hta htb]
  have ha' : parseF64 (String.mk a.data) = some da := hpa
  have hb' : parseF64 (String.mk b.data) = some db := hpb
  simp only [ha', hb']

/-- C7 witness: the general theorem applied to `Point(13.4 52.5)`. -/
theorem sparql_geo_point_witness :
    SparqlValue.new_from_json (mkWktJson "Point(13.4 52.5)")
      = some (.location ⟨⟨false, 525, 1⟩, ⟨false, 134, 1⟩⟩) :=
  sparql_geo_point.1 "13.4" "52.5" ⟨false, 134, 1⟩ ⟨false, 525, 1⟩
    (by decide) (by decide) rfl rfl

/-! ## Claim C10: totality of normalize_page_title -/

/-- C10 (amended): inputs of byte length below 2 pass through unchanged;
otherwise, when the first character is a single UTF-8 byte the result is
that character uppercased followed by the rest, and when the first character
is multi-byte the byte-index split panics (modelled as `none`). -/
theorem normalize_page_title_behaviour (s : String) :
    (byteLen s.data < 2 → normalize_page_title s = some s)
  ∧ (∀ c rest, s.data = c :: rest → ¬ byteLen s.data < 2 → c.utf8Size = 1 →
      normalize_page_title s = some (String.mk (Char.toUpper c :: rest)))
  ∧ (∀ c rest, s.data = c :: rest → ¬ byteLen s.data < 2 → c.utf8Size ≠ 1 →
      normalize_page_title s = none) := by
  refine ⟨?_, ?_, ?_⟩
  · intro h
    unfold normalize_page_title normalizeChars
    rw [if_pos h]
    rfl
  · intro c rest hdata hlen hsize
    have hlen' : ¬ byteLen (c :: rest) < 2 := by rw [← hdata]; exact hlen
    unfold normalize_page_title normalizeChars
    rw [hdata, if_neg hlen']
    dsimp only
    rw [if_pos hsize]
    rfl
  · intro c rest hdata hlen hsize
    have hlen' : ¬ byteLen (c :: rest) < 2 := by rw [← hdata]; exact hlen
    unfold normalize_page_title normalizeChars
    rw [hdata, if_neg hlen']
    dsimp only
    rw [if_neg hsize]
    rfl

/-- C10 counterexample: a two-byte single character panics (the claim says
the first character is uppercased even when multi-byte). -/
theorem normalize_page_title_panics :
    normalize_page_title "é" = none ∧ normalize_page_title "é" ≠ some "É" :=
  ⟨by decide, by decide⟩

/-- C10 witness: the amended theorem applied to a two-character ASCII
title. -/
theorem normalize_page_title_behaviour_witness :
    normalize_page_title "ab" = some "Ab" :=
  (normalize_page_title_behaviour "ab").2.1 'a' ['b'] rfl (by decide) (by decide)

/-! ## Claim C5: generate_label and the repeated first property -/

/-- C5: `generate_label` maps a Property column to the store's localized
label (raw identifier when unlabelled) and joins a PropertyQualifier
column's two labels with a slash, but for PropertyQualifierValue it emits
the first property's label three times — `a/a/a`, not the claimed
`a/b/c`. -/
theorem generate_label_pqv_repeats_first :
    (Column.generate_label c5Store "en" ⟨.propertyQualifierValue "P1" "P2" "P3", "col"⟩).label
      = "a/a/a"
  ∧ ("a/a/a" : String) ≠ "a/b/c"
  ∧ (Column.generate_label c5Store "en" ⟨.property "P1", "col"⟩).label = "a"
  ∧ (Column.generate_label c5Store "en" ⟨.propertyQualifier "P1" "P2", "col"⟩).label = "a/b"
  ∧ (Column.generate_label c5Store "en" ⟨.property "P9", "col"⟩).label = "P9" :=
  ⟨by decide, by decide, by decide, by decide, by decide⟩

/-! ## Claim C4: tabbed_string_safe sanitizes but never truncates -/

/-- C4: the tabbed-output sanitizer replaces newlines and tabs by spaces,
but a 401-character input comes back at full length — the `400 chars Max`
truncation in the source discards its result, so no cap is applied. -/
theorem tabbed_string_safe_uncapped :
    (tabbed_string_safe (String.mk (List.replicate 401 'a'))).data.length = 401
  ∧ 400 < (tabbed_string_safe (String.mk (List.replicate 401 'a'))).data.length
  ∧ tabbed_string_safe "a\nb\tc" = "a b c" := by
  have hlen : (tabbed_string_safe (String.mk (List.replicate 401 'a'))).data.length = 401 := by
    simp only [tabbed_string_safe, List.length_map, List.length_replicate]
  exact ⟨hlen, by rw [hlen]; decide, by decide⟩

end Listeria
